import Mathlib

/-!
# Github-to-docx web client: job lifecycle and extension filters

A shallow embedding of the React front end
(`frontend/src/App.js`, `components/ConverterForm.js`,
`components/ProgressPanel.js`, `components/ResultsPanel.js`).

React component state becomes a record, every event handler becomes a
function on that record, and the polling effect of `App` becomes an explicit
timer field of a session that is recomputed whenever `jobId` changes.
JavaScript strings are Lean strings, `null` / `undefined` are `none`, and the
truthiness tests of the source (`a || b`, `!a`, `a && b`) are spelled out.
-/

namespace GithubDocx

/-! ## JavaScript helpers -/

/-- Truthiness of a string-or-null value: `null`, `undefined` and the empty
string are falsy, every other string is truthy. -/
def truthy : Option String → Bool
  | some s => s != ""
  | none => false

/-- The source's `s.startsWith('.')`. -/
def startsWithDot (s : String) : Bool :=
  match s.data with
  | c :: _ => c == '.'
  | [] => false

/-! ## ConverterForm.js -/

/-- The constant `DEFAULT_EXTENSIONS`. -/
def DEFAULT_EXTENSIONS : List String :=
  [".cpp", ".h", ".hpp", ".py", ".js", ".ts", ".jsx", ".tsx", ".java", ".c", ".cs"]

/-- The `useState` cells of `ConverterForm`. -/
structure FormState where
  url : String
  token : String
  showToken : Bool
  extensions : List String
  customExtension : String
  deriving DecidableEq, Repr

/-- The state of a freshly mounted form. -/
def FormState.initial : FormState :=
  { url := "", token := "", showToken := false,
    extensions := DEFAULT_EXTENSIONS, customExtension := "" }

/-- The `onChange` handler of the custom-extension text box. -/
def setCustomExtension (f : FormState) (v : String) : FormState :=
  { f with customExtension := v }

/-- The handler `addExtension`: the membership test is made on the text as
typed, the leading dot is added afterwards. -/
def addExtension (f : FormState) : FormState :=
  if f.customExtension != "" && !f.extensions.contains f.customExtension then
    let ext := if startsWithDot f.customExtension then f.customExtension
               else "." ++ f.customExtension
    { f with extensions := f.extensions ++ [ext], customExtension := "" }
  else f

/-- The handler `removeExtension`. -/
def removeExtension (f : FormState) (ext : String) : FormState :=
  { f with extensions := f.extensions.filter (fun e => e != ext) }

/-- The handler `toggleExtension`. -/
def toggleExtension (f : FormState) (ext : String) : FormState :=
  if f.extensions.contains ext then removeExtension f ext
  else { f with extensions := f.extensions ++ [ext] }

/-- The object `handleSubmit` hands to `onSubmit`. -/
structure FormData where
  url : String
  token : Option String
  extensions : List String
  deriving DecidableEq, Repr

/-- The handler `handleSubmit`: `token || null` turns the empty string into
`null`. -/
def handleSubmit (f : FormState) : FormData :=
  { url := f.url,
    token := if f.token != "" then some f.token else none,
    extensions := f.extensions }

/-- One user action on the extension controls: typing a text and pressing
`Add`, or clicking the tag of a default extension. -/
inductive ExtAction where
  | add (customExtension : String)
  | toggle (ext : String)
  deriving DecidableEq, Repr

/-- The effect of one action on the form. -/
def ExtAction.apply (f : FormState) : ExtAction → FormState
  | .add c => addExtension (setCustomExtension f c)
  | .toggle e => toggleExtension f e

/-- An action the rendered form offers: any text may be added, only the tags
of `DEFAULT_EXTENSIONS` can be clicked. -/
def ExtAction.Offered : ExtAction → Prop
  | .add _ => True
  | .toggle e => e ∈ DEFAULT_EXTENSIONS

instance ExtAction.decOffered (a : ExtAction) : Decidable a.Offered := by
  cases a <;> unfold ExtAction.Offered <;> infer_instance

/-- The form after a sequence of actions, oldest first. -/
def runActions (f : FormState) (as : List ExtAction) : FormState :=
  as.foldl ExtAction.apply f

/-! ## App.js: data -/

/-- One entry of the `files` array of a status payload. -/
structure FileEntry where
  filename : String
  folder : String
  deriving DecidableEq, Repr

/-- The `progress` object of a status payload; a field the server left out is
`none`. -/
structure Progress where
  processed : Option Int
  total : Option Int
  current_file : Option String
  detail_status : Option String
  deriving DecidableEq, Repr

/-- The JSON object answered by `GET /status/<jobId>`; a field the server left
out is `none`. -/
structure StatusData where
  status : Option String
  progress : Option Progress
  files : Option (List FileEntry)
  error : Option String
  deriving DecidableEq, Repr

/-- How the two awaits of `pollStatus` end: with a parsed body, or with a
rejection of `fetch` or of `response.json()`. -/
inductive PollResult where
  | ok (data : StatusData)
  | throws
  deriving DecidableEq, Repr

/-- How the two awaits of `handleConvert` end: with a rejection carrying the
exception's `message`, or with a parsed body of which the handler reads
`response.ok`, `data.error` and `data.job_id`. -/
inductive SubmitResult where
  | throws (message : String)
  | response (ok : Bool) (error : Option String) (job_id : Option String)
  deriving DecidableEq, Repr

/-- The `useState` cells of `App`. -/
structure AppState where
  jobId : Option String
  status : Option StatusData
  isLoading : Bool
  error : Option String
  results : Option (List FileEntry)
  deriving DecidableEq, Repr

/-- The state of a freshly mounted `App`. -/
def AppState.initial : AppState :=
  { jobId := none, status := none, isLoading := false, error := none, results := none }

/-! ## App.js: handlers -/

/-- The body of `pollStatus` after its awaits: `setStatus(data)`, then the two
branches on `data.status`; a rejection goes to the `catch` block. -/
def pollStatus (s : AppState) : PollResult → AppState
  | .ok data =>
    let s1 := { s with status := some data }
    if data.status = some "completed" then
      { s1 with results := data.files, isLoading := false }
    else if data.status = some "error" then
      { s1 with error := data.error, isLoading := false }
    else s1
  | .throws => { s with error := some "Failed to fetch status", isLoading := false }

/-- The part of `handleConvert` that runs before its first await. -/
def handleConvertBegin (s : AppState) : AppState :=
  { s with isLoading := true, error := none, results := none, status := none }

/-- The message of the `Error` thrown on a response that is not ok:
`data.error || 'Failed to start conversion'`. -/
def submitErrorMessage (error : Option String) : String :=
  match error with
  | some e => if e != "" then e else "Failed to start conversion"
  | none => "Failed to start conversion"

/-- The part of `handleConvert` that runs after its awaits. -/
def handleConvertEnd (s : AppState) : SubmitResult → AppState
  | .throws message => { s with error := some message, isLoading := false }
  | .response ok error job_id =>
    if !ok then { s with error := some (submitErrorMessage error), isLoading := false }
    else { s with jobId := job_id }

/-- The whole of `handleConvert` when nothing else happens during its awaits. -/
def handleConvert (s : AppState) (r : SubmitResult) : AppState :=
  handleConvertEnd (handleConvertBegin s) r

/-- The handler `handleReset`. -/
def handleReset (_s : AppState) : AppState :=
  { jobId := none, status := none, isLoading := false, error := none, results := none }

/-- The constant `API_BASE`. -/
def API_BASE : String := "http://localhost:5000/api"

/-- Template-literal rendering of `jobId`: `null` prints as `null`. -/
def jobIdText : Option String → String
  | some j => j
  | none => "null"

/-- The handler `handleDownload`: the list of addresses it passes to
`window.open`. It opens one window for whatever filename it is given and never
throws. -/
def handleDownload (s : AppState) (filename : String) : List String :=
  [API_BASE ++ "/download/" ++ jobIdText s.jobId ++ "/" ++ filename]

/-! ## ResultsPanel.js -/

/-- The file names `ResultsPanel` renders, one row per entry of `files`. -/
def ResultsPanel.fileNames (files : List FileEntry) : List String :=
  files.map (fun file => file.filename)

/-- The filename the `Download` button of row `index` passes to `onDownload`;
there is no button for an index past the end. -/
def ResultsPanel.downloadClick (files : List FileEntry) (index : Nat) : Option String :=
  (files.get? index).map (fun file => file.filename)

/-- The filenames `Download All` passes to `onDownload`, in order. -/
def ResultsPanel.downloadAll (files : List FileEntry) : List String :=
  files.map (fun f => f.filename)

/-! ## ProgressPanel.js -/

/-- The label `getStatusText` switches on:
`progress.detail_status || status?.status`, where `progress` is
`status?.progress || {}`. A falsy result is `none`. -/
def statusDetail (status : Option StatusData) : Option String :=
  let detail_status := (status.bind (fun d => d.progress)).bind (fun p => p.detail_status)
  if truthy detail_status then detail_status
  else
    let st := status.bind (fun d => d.status)
    if truthy st then st else none

/-- The function `getStatusText` of `ProgressPanel`. -/
def getStatusText (status : Option StatusData) : String :=
  match statusDetail status with
  | some "parsing_url" => "Parsing GitHub URL..."
  | some "counting_files" => "Counting files to process..."
  | some "processing" => "Processing files..."
  | some "saving" => "Saving documents..."
  | some detail => detail
  | none => "Working..."

/-! ## App.js: what is on screen -/

/-- The form is rendered: `!isLoading && !results`. -/
def formShown (s : AppState) : Bool := !s.isLoading && !s.results.isSome

/-- The results panel is rendered: `results` is truthy (an empty array is). -/
def resultsShown (s : AppState) : Bool := s.results.isSome

/-! ## App.js: the polling effect and the session around the component -/

/-- The effect keyed on `jobId`: no timer for a falsy `jobId`, otherwise one
`setInterval` whose callback closes over this `jobId`. The result is the job
the running timer polls. -/
def pollingEffect (jobId : Option String) : Option String :=
  if truthy jobId then jobId else none

/-- The component together with what lives outside its state: the interval
timer of the effect, the status requests awaiting their response (by job), and
the number of `handleConvert` calls awaiting theirs. -/
structure Session where
  app : AppState
  timer : Option String
  inFlight : List String
  submits : Nat
  deriving DecidableEq, Repr

/-- The session of a freshly mounted `App`: the effect ran with `jobId`
`null`. -/
def Session.initial : Session :=
  { app := AppState.initial, timer := pollingEffect AppState.initial.jobId,
    inFlight := [], submits := 0 }

/-- Commit of a new component state: when `jobId` changed, the cleanup
`clearInterval` runs and the effect runs again; otherwise the timer is left
alone. -/
def commit (σ : Session) (app : AppState) : Session :=
  { σ with app := app,
           timer := if app.jobId = σ.app.jobId then σ.timer else pollingEffect app.jobId }

/-- What can happen to a session. -/
inductive Event where
  | convert
  | convertResolved (r : SubmitResult)
  | tick
  | pollResolved (job : String) (r : PollResult)
  | reset
  | download (filename : String)
  deriving DecidableEq, Repr

/-- One event, `none` when the event cannot happen in this session: the form
can be submitted only while it is rendered, `Convert Another` and the download
buttons exist only while the results panel is rendered, a response needs a
request awaiting it, and a tick needs a running timer. -/
def step (σ : Session) : Event → Option Session
  | .convert =>
    if formShown σ.app then
      some { commit σ (handleConvertBegin σ.app) with submits := σ.submits + 1 }
    else none
  | .convertResolved r =>
    if 0 < σ.submits then
      some { commit σ (handleConvertEnd σ.app r) with submits := σ.submits - 1 }
    else none
  | .tick =>
    match σ.timer with
    | some job => some { σ with inFlight := σ.inFlight ++ [job] }
    | none => none
  | .pollResolved job r =>
    if σ.inFlight.contains job then
      some { commit σ (pollStatus σ.app r) with inFlight := σ.inFlight.erase job }
    else none
  | .reset =>
    if resultsShown σ.app then some (commit σ (handleReset σ.app)) else none
  | .download filename =>
    match σ.app.results with
    | some files =>
      if (ResultsPanel.fileNames files).contains filename then some σ else none
    | none => none

/-- A run of events, oldest first; `none` as soon as one cannot happen. -/
def run (σ : Session) : List Event → Option Session
  | [] => some σ
  | e :: es => (step σ e).bind (fun σ1 => run σ1 es)

/-- The sessions the program can be in. -/
inductive Reachable : Session → Prop where
  | init : Reachable Session.initial
  | next {σ σ1 : Session} (e : Event) : Reachable σ → step σ e = some σ1 → Reachable σ1

/-! ## The states of the job lifecycle, read off the component state -/

/-- Completed: `results` is set. -/
def Completed (s : AppState) : Prop := s.results.isSome = true

/-- Failed: `error` is set. -/
def Failed (s : AppState) : Prop := s.error.isSome = true

/-- Terminal: Completed or Failed. -/
def Terminal (s : AppState) : Prop := Completed s ∨ Failed s

/-- Polling: a job is held, the component is busy, and there is neither an
error nor a result. -/
def Polling (s : AppState) : Prop :=
  truthy s.jobId = true ∧ s.isLoading = true ∧ s.error = none ∧ s.results = none

/-- The empty Idle state of the claim about late responses: no status, no
results, no error, not busy. -/
def IdleEmpty (s : AppState) : Prop :=
  s.status = none ∧ s.results = none ∧ s.error = none ∧ s.isLoading = false

/-- A response that ends the job: a payload with status `completed` or
`error`, or a failed status request. -/
def PollResult.endsJob : PollResult → Bool
  | .ok data => data.status == some "completed" || data.status == some "error"
  | .throws => true

/-- Events that leave `results`, `error` and `isLoading` alone whatever the
state: a timer tick, a download, a status payload that does not end the job,
and a positive acknowledgment of a submission. -/
def Event.quiet : Event → Bool
  | .tick => true
  | .download _ => true
  | .pollResolved _ r => !r.endsJob
  | .convertResolved (.response true _ _) => true
  | _ => false

/-- A submission that fails: the request is rejected, or the response is not
ok. -/
def SubmitResult.failed : SubmitResult → Bool
  | .throws _ => true
  | .response ok _ _ => !ok

/-! ## Sample data of the scenarios -/

/-- A positive acknowledgment carrying job `J1`. -/
def ackJ1 : SubmitResult := .response true none (some "J1")

/-- The payload `{status: "completed", files: [{filename: "a.docx", folder: "r"}]}`. -/
def completedPayload : StatusData :=
  { status := some "completed", progress := none,
    files := some [{ filename := "a.docx", folder := "r" }], error := none }

/-- The payload `{status: "error", error: "rate limited"}`. -/
def errorPayload : StatusData :=
  { status := some "error", progress := none, files := none, error := some "rate limited" }

/-- The payload `{status: "processing", progress: {processed: 2, total: 4}}`. -/
def processingPayload : StatusData :=
  { status := some "processing",
    progress := some { processed := some 2, total := some 4, current_file := none,
                       detail_status := none },
    files := none, error := none }

/-- Job `J1` was submitted and acknowledged, and one poll answered
`errorPayload`; the timer then ticked once more. -/
def traceFailed : List Event :=
  [.convert, .convertResolved ackJ1, .tick, .pollResolved "J1" (.ok errorPayload), .tick]

/-- The session at the end of `traceFailed`. -/
def sessionFailed : Session :=
  { app := { jobId := some "J1", status := some errorPayload, isLoading := false,
             error := some "rate limited", results := none },
    timer := some "J1", inFlight := ["J1"], submits := 0 }

/-- Job `J1` was submitted and acknowledged, and one poll answered
`completedPayload`. -/
def traceCompleted : List Event :=
  [.convert, .convertResolved ackJ1, .tick, .pollResolved "J1" (.ok completedPayload)]

/-- The session at the end of `traceCompleted`. -/
def sessionCompleted : Session :=
  { app := { jobId := some "J1", status := some completedPayload, isLoading := false,
             error := none, results := some [{ filename := "a.docx", folder := "r" }] },
    timer := some "J1", inFlight := [], submits := 0 }

/-- The session `sessionFailed` after its pending request answered
`processingPayload`. -/
def sessionFailedProgress : Session :=
  { sessionFailed with
    app := { sessionFailed.app with status := some processingPayload }, inFlight := [] }

/-- Job `J1` completed, the timer ticked again, the user pressed
`Convert Another`, and then the pending response arrived. -/
def traceLateResponse : List Event :=
  traceCompleted ++ [.tick, .reset, .pollResolved "J1" (.ok completedPayload)]

/-- The session at the end of `traceLateResponse`. -/
def sessionLateResponse : Session :=
  { app := { jobId := none, status := some completedPayload, isLoading := false,
             error := none, results := some [{ filename := "a.docx", folder := "r" }] },
    timer := none, inFlight := [], submits := 0 }

/-- Job `J1` failed with a server error and the user submitted the form
again; the acknowledgment of the new submission has not arrived. -/
def traceResubmit : List Event :=
  [.convert, .convertResolved ackJ1, .tick, .pollResolved "J1" (.ok errorPayload), .convert]

/-- The session at the end of `traceResubmit`. -/
def sessionResubmit : Session :=
  { app := { jobId := some "J1", status := none, isLoading := true, error := none,
             results := none },
    timer := some "J1", inFlight := [], submits := 1 }

/-- A component that is polling job `J1` and has received nothing yet. -/
def pollingJ1 : AppState :=
  { jobId := some "J1", status := none, isLoading := true, error := none, results := none }

/-- The payload `{status: ""}`: a status that is neither `completed` nor
`error`, and no progress object. -/
def emptyLabelPayload : StatusData :=
  { status := some "", progress := none, files := none, error := none }

/-- The payload `{status: "queued", progress: {detail_status: "cloning"}}`,
with labels the client has no case for. -/
def unknownLabelPayload : StatusData :=
  { status := some "queued",
    progress := some { processed := none, total := none, current_file := none,
                       detail_status := some "cloning" },
    files := none, error := none }

/-- The four labels `getStatusText` has a case for. -/
def knownLabels : List String := ["parsing_url", "counting_files", "processing", "saving"]

/-! ## JavaScript numbers (ProgressPanel.js computes with them)

A JavaScript number is an IEEE 754 double. A finite one is taken here as the
rational it stands for (the two zeros are one value: they compare equal and
print alike); every arithmetic result is rounded to the nearest double, a tie
going to the one with an even significand, and a result too large for a double
is an infinity. -/

/-- A JavaScript number: a finite double, `Infinity`, `-Infinity` or `NaN`. -/
inductive JSNumber where
  | finite (value : ℚ)
  | posInf
  | negInf
  | nan
  deriving DecidableEq, Repr

/-- The integer nearest to `x`, a tie going to the even one. -/
def roundHalfEven (x : ℚ) : ℤ :=
  let f := ⌊x⌋
  if x - f < 1 / 2 then f
  else if 1 / 2 < x - f then f + 1
  else if f % 2 = 0 then f else f + 1

/-- The exponent of the doubles around `x`: the greatest `e` with
`2 ^ e ≤ |x|`, but not below `-1022`, where the subnormal doubles begin. -/
def binade (x : ℚ) : ℤ := max (Int.log 2 |x|) (-1022)

/-- The distance between neighbouring doubles around `x`: a double has 52
fraction bits. -/
def ulp (x : ℚ) : ℚ := 2 ^ (binade x - 52)

/-- The multiple of `ulp x` nearest to `x`, ties to even: the double nearest
to `x` when the exponent range is not exceeded. -/
def nearestDouble (x : ℚ) : ℚ := roundHalfEven (x / ulp x) * ulp x

/-- The number an exact value rounds to: the nearest double, or an infinity
when the magnitude reaches `2 ^ 1024`. This is also how `JSON.parse` reads a
numeric literal. -/
def toNumber (x : ℚ) : JSNumber :=
  if |nearestDouble x| < 2 ^ 1024 then .finite (nearestDouble x)
  else if 0 < x then .posInf else .negInf

/-- The infinity with the sign of `a` times the sign of `b`; a zero counts as
positive. -/
def signedInf (a b : ℚ) : JSNumber :=
  if (0 ≤ a) = (0 ≤ b) then .posInf else .negInf

/-- The operator `a / b`. A zero divisor is taken as `+0`; `percentage` never
divides by zero. -/
def jsDiv : JSNumber → JSNumber → JSNumber
  | .nan, _ => .nan
  | _, .nan => .nan
  | .finite a, .finite b =>
    if b = 0 then (if a = 0 then .nan else signedInf a 1) else toNumber (a / b)
  | .finite _, .posInf => .finite 0
  | .finite _, .negInf => .finite 0
  | .posInf, .finite b => signedInf 1 b
  | .negInf, .finite b => signedInf (-1) b
  | .posInf, .posInf => .nan
  | .posInf, .negInf => .nan
  | .negInf, .posInf => .nan
  | .negInf, .negInf => .nan

/-- The operator `a * b`. -/
def jsMul : JSNumber → JSNumber → JSNumber
  | .nan, _ => .nan
  | _, .nan => .nan
  | .finite a, .finite b => toNumber (a * b)
  | .finite a, .posInf => if a = 0 then .nan else signedInf a 1
  | .finite a, .negInf => if a = 0 then .nan else signedInf a (-1)
  | .posInf, .finite b => if b = 0 then .nan else signedInf 1 b
  | .negInf, .finite b => if b = 0 then .nan else signedInf (-1) b
  | .posInf, .posInf => .posInf
  | .posInf, .negInf => .negInf
  | .negInf, .posInf => .negInf
  | .negInf, .negInf => .posInf

/-- The comparison `a > 0`. -/
def jsPositive : JSNumber → Bool
  | .finite a => decide (0 < a)
  | .posInf => true
  | .negInf => false
  | .nan => false

/-- The comparison `a <= b`: false as soon as one side is `NaN`. -/
def JSNumber.le : JSNumber → JSNumber → Prop
  | .nan, _ => False
  | _, .nan => False
  | .negInf, _ => True
  | _, .posInf => True
  | .finite a, .finite b => a ≤ b
  | .finite _, .negInf => False
  | .posInf, .finite _ => False
  | .posInf, .negInf => False

/-- The function `Math.round`: the nearest integer, a tie going up; an
infinity and `NaN` are returned as they are. -/
def Math.round : JSNumber → JSNumber
  | .finite x => .finite (⌊x + 1 / 2⌋ : ℤ)
  | .posInf => .posInf
  | .negInf => .negInf
  | .nan => .nan

/-- The first line of `ProgressPanel`: `status?.progress || {}`. -/
def ProgressPanel.progress (status : Option StatusData) : Progress :=
  match status.bind (fun d => d.progress) with
  | some progress => progress
  | none => { processed := none, total := none, current_file := none, detail_status := none }

/-- A count as the number the arithmetic sees: the parsed JSON number, and
`NaN` for a missing field (`undefined`). -/
def countNumber : Option ℤ → JSNumber
  | some n => toNumber n
  | none => .nan

/-- The constant `percentage` of `ProgressPanel`:
`progress.total > 0 ? Math.round((progress.processed / progress.total) * 100) : 0`. -/
def percentage (progress : Progress) : JSNumber :=
  if jsPositive (countNumber progress.total) then
    Math.round (jsMul (jsDiv (countNumber progress.processed) (countNumber progress.total))
      (.finite 100))
  else .finite 0

/-- A progress object holding the two counts and nothing else. -/
def progressOf (processed total : ℤ) : Progress :=
  { processed := some processed, total := some total, current_file := none,
    detail_status := none }

/-- The percentage in the words of the specification:
`round(100 * processed / total)` when the total is positive and 0 otherwise,
in exact arithmetic, a half rounding up. -/
def percentageSpec (processed total : ℤ) : ℤ :=
  if 0 < total then ⌊(100 * processed / total : ℚ) + 1 / 2⌋ else 0

/-- Both sides are non-negative numbers or `Infinity`, and the left one is at
most the right one. -/
def NonnegLe : JSNumber → JSNumber → Prop
  | .finite a, .finite b => 0 ≤ a ∧ a ≤ b
  | .finite a, .posInf => 0 ≤ a
  | .posInf, .posInf => True
  | _, _ => False

/-- An integer too large for a double: `JSON.parse` reads it as `Infinity`. -/
def hugeCount : ℤ := 10 ^ 309

/-- Every entry begins with a dot. -/
def AllDotted (f : FormState) : Prop := ∀ e ∈ f.extensions, startsWithDot e = true

/-! ## Extension filters (ConverterForm.js) -/

theorem startsWithDot_dot_append (s : String) : startsWithDot ("." ++ s) = true := by
  have h : ("." ++ s).data = '.' :: s.data := by
    show (".".data ++ s.data) = '.' :: s.data
    rfl
  simp [startsWithDot, h]

theorem default_extensions_startWithDot :
    ∀ e ∈ DEFAULT_EXTENSIONS, startsWithDot e = true := by
  decide

theorem addExtension_allDotted (f : FormState) (h : AllDotted f) :
    AllDotted (addExtension f) := by
  unfold addExtension
  split
  · intro e he
    simp only [List.mem_append, List.mem_singleton] at he
    rcases he with he | he
    · exact h e he
    · subst he
      split
      · assumption
      · exact startsWithDot_dot_append _
  · exact h

theorem toggleExtension_allDotted (f : FormState) (ext : String)
    (hext : startsWithDot ext = true) (h : AllDotted f) :
    AllDotted (toggleExtension f ext) := by
  unfold toggleExtension
  split
  · intro e he
    simp only [removeExtension, List.mem_filter] at he
    exact h e he.1
  · intro e he
    simp only [List.mem_append, List.mem_singleton] at he
    rcases he with he | he
    · exact h e he
    · subst he
      exact hext

theorem apply_allDotted (f : FormState) (a : ExtAction) (ha : a.Offered)
    (h : AllDotted f) : AllDotted (a.apply f) := by
  cases a with
  | add c => exact addExtension_allDotted _ h
  | toggle e => exact toggleExtension_allDotted f e (default_extensions_startWithDot e ha) h

/-- The leading-dot half of C1 holds: after any sequence of offered actions on
the freshly mounted form, every extension `handleSubmit` passes on begins with
a dot. -/
theorem runActions_allDotted (as : List ExtAction) (has : ∀ a ∈ as, a.Offered) :
    ∀ e ∈ (handleSubmit (runActions FormState.initial as)).extensions,
      startsWithDot e = true := by
  have key : ∀ (as : List ExtAction) (f : FormState), (∀ a ∈ as, a.Offered) →
      AllDotted f → AllDotted (runActions f as) := by
    intro as
    induction as with
    | nil => intro f _ h; exact h
    | cons a rest ih =>
      intro f hall h
      exact ih (a.apply f) (fun b hb => hall b (List.mem_cons_of_mem _ hb))
        (apply_allDotted f a (hall a (List.mem_cons_self _ _)) h)
  exact key as FormState.initial has default_extensions_startWithDot

theorem runActions_allDotted_witness :
    ∀ e ∈ (handleSubmit (runActions FormState.initial
        [ExtAction.add "py", ExtAction.toggle ".js"])).extensions,
      startsWithDot e = true :=
  runActions_allDotted [ExtAction.add "py", ExtAction.toggle ".js"] (by decide)

/-- C1, the failing input: typing `py` and pressing `Add` on the freshly
mounted form passes the membership test (the list holds `.py`, not `py`), the
dot is added afterwards, and `handleSubmit` passes on a list holding `.py`
twice. -/
theorem addExtension_py_duplicate :
    (handleSubmit (runActions FormState.initial [ExtAction.add "py"])).extensions
        = [".cpp", ".h", ".hpp", ".py", ".js", ".ts", ".jsx", ".tsx", ".java", ".c", ".cs",
           ".py"]
      ∧ ¬ (handleSubmit (runActions FormState.initial [ExtAction.add "py"])).extensions.Nodup := by
  decide

/-! ## The session: general facts -/

theorem reachable_run {σ σ1 : Session} (es : List Event) (h : Reachable σ)
    (hrun : run σ es = some σ1) : Reachable σ1 := by
  induction es generalizing σ with
  | nil =>
    simp only [run, Option.some.injEq] at hrun
    exact hrun ▸ h
  | cons e rest ih =>
    simp only [run] at hrun
    cases hstep : step σ e with
    | none => simp [hstep] at hrun
    | some σ2 =>
      rw [hstep] at hrun
      exact ih (Reachable.next e h hstep) hrun

theorem commit_timer (σ : Session) (app : AppState)
    (h : σ.timer = pollingEffect σ.app.jobId) :
    (commit σ app).timer = pollingEffect (commit σ app).app.jobId := by
  unfold commit
  by_cases hj : app.jobId = σ.app.jobId
  · simp [hj, h]
  · simp [hj]

/-- In every reachable session the timer is exactly what the effect sets up
for the held `jobId`. -/
theorem reachable_timer {σ : Session} (h : Reachable σ) :
    σ.timer = pollingEffect σ.app.jobId := by
  induction h with
  | init => rfl
  | @next σ σ1 e _ hstep ih =>
    cases e with
    | convert =>
      simp only [step] at hstep
      split at hstep
      · cases hstep; exact commit_timer σ _ ih
      · cases hstep
    | convertResolved r =>
      simp only [step] at hstep
      split at hstep
      · cases hstep; exact commit_timer σ _ ih
      · cases hstep
    | tick =>
      simp only [step] at hstep
      split at hstep
      · cases hstep; exact ih
      · cases hstep
    | pollResolved job r =>
      simp only [step] at hstep
      split at hstep
      · cases hstep; exact commit_timer σ _ ih
      · cases hstep
    | reset =>
      simp only [step] at hstep
      split at hstep
      · cases hstep; exact commit_timer σ _ ih
      · cases hstep
    | download f =>
      simp only [step] at hstep
      split at hstep
      · split at hstep
        · cases hstep; exact ih
        · cases hstep
      · cases hstep

theorem pollStatus_jobId (s : AppState) (r : PollResult) :
    (pollStatus s r).jobId = s.jobId := by
  cases r with
  | ok d => simp only [pollStatus]; split_ifs <;> rfl
  | throws => rfl

/-! ## C2: terminal states -/

/-- C2 fails on the code: the session reached by `traceFailed` is Failed with
message `rate limited`, the timer of job `J1` is still running and a status
request is in flight; when that request fails, the message becomes
`Failed to fetch status` although no reset happened. -/
theorem failed_message_overwritten :
    run Session.initial traceFailed = some sessionFailed
      ∧ Failed sessionFailed.app
      ∧ sessionFailed.app.error = some "rate limited"
      ∧ Event.pollResolved "J1" PollResult.throws ≠ Event.reset
      ∧ (step sessionFailed (Event.pollResolved "J1" PollResult.throws)).map
          (fun σ => σ.app.error) = some (some "Failed to fetch status") := by
  refine ⟨by decide, ?_, by decide, by decide, by decide⟩
  unfold Failed
  decide

/-- C2 as amended: in a terminal state, an event that is a timer tick, a
download, a status payload that does not end the job, or a positive
acknowledgment of a submission leaves `results`, `error` and `isLoading` as
they are, so the state stays terminal with the same outcome. -/
theorem terminal_kept_by_quiet_event (σ σ1 : Session) (e : Event)
    (hterm : Terminal σ.app) (hquiet : e.quiet = true) (hstep : step σ e = some σ1) :
    σ1.app.results = σ.app.results ∧ σ1.app.error = σ.app.error
      ∧ σ1.app.isLoading = σ.app.isLoading ∧ Terminal σ1.app := by
  have key : σ1.app.results = σ.app.results ∧ σ1.app.error = σ.app.error
      ∧ σ1.app.isLoading = σ.app.isLoading := by
    cases e with
    | convert => simp [Event.quiet] at hquiet
    | reset => simp [Event.quiet] at hquiet
    | tick =>
      simp only [step] at hstep
      split at hstep
      · cases hstep; exact ⟨rfl, rfl, rfl⟩
      · cases hstep
    | download f =>
      simp only [step] at hstep
      split at hstep
      · split at hstep
        · cases hstep; exact ⟨rfl, rfl, rfl⟩
        · cases hstep
      · cases hstep
    | convertResolved r =>
      cases r with
      | throws m => simp [Event.quiet] at hquiet
      | response ok err job =>
        cases ok with
        | false => simp [Event.quiet] at hquiet
        | true =>
          simp only [step] at hstep
          split at hstep
          · cases hstep; exact ⟨rfl, rfl, rfl⟩
          · cases hstep
    | pollResolved job r =>
      cases r with
      | throws => simp [Event.quiet, PollResult.endsJob] at hquiet
      | ok d =>
        simp only [Event.quiet, PollResult.endsJob, Bool.not_eq_true', Bool.or_eq_false_iff,
          beq_eq_false_iff_ne, ne_eq] at hquiet
        simp only [step] at hstep
        split at hstep
        · cases hstep
          simp [commit, pollStatus, hquiet.1, hquiet.2]
        · cases hstep
  refine ⟨key.1, key.2.1, key.2.2, ?_⟩
  unfold Terminal Completed Failed at *
  rw [key.1, key.2.1]
  exact hterm

theorem terminal_kept_by_quiet_event_witness :
    Terminal sessionFailed.app
      ∧ step sessionFailed (Event.pollResolved "J1" (PollResult.ok processingPayload))
          = some sessionFailedProgress
      ∧ sessionFailedProgress.app.results = sessionFailed.app.results
      ∧ sessionFailedProgress.app.error = sessionFailed.app.error
      ∧ sessionFailedProgress.app.isLoading = sessionFailed.app.isLoading
      ∧ Terminal sessionFailedProgress.app :=
  have hterm : Terminal sessionFailed.app := Or.inr (by unfold Failed; decide)
  have hstep : step sessionFailed (Event.pollResolved "J1" (PollResult.ok processingPayload))
      = some sessionFailedProgress := by decide
  ⟨hterm, hstep, terminal_kept_by_quiet_event sessionFailed sessionFailedProgress _ hterm
    (by decide) hstep⟩

/-! ## C3: the timer after a tick that ends the job -/

/-- C3 fails on the code: after the poll that answered `completed` the timer
of job `J1` is still set, and the next tick issues one more status request for
`J1`. -/
theorem timer_runs_after_completed :
    run Session.initial traceCompleted = some sessionCompleted
      ∧ Completed sessionCompleted.app
      ∧ sessionCompleted.timer = some "J1"
      ∧ step sessionCompleted Event.tick
          = some { sessionCompleted with inFlight := ["J1"] } := by
  refine ⟨by decide, ?_, by decide, by decide⟩
  unfold Completed
  decide

/-- C3 as amended: a poll response that ends the job (status `completed`,
status `error`, or a failed status request) makes the component not busy but
leaves `jobId` and the timer as they were; a timer that was running keeps
running and its next tick issues one more status request for the same job. -/
theorem poll_end_keeps_timer (σ σ1 : Session) (job : String) (r : PollResult)
    (hend : r.endsJob = true) (hstep : step σ (Event.pollResolved job r) = some σ1) :
    σ1.app.isLoading = false ∧ σ1.app.jobId = σ.app.jobId ∧ σ1.timer = σ.timer
      ∧ ∀ j, σ.timer = some j →
          step σ1 Event.tick = some { σ1 with inFlight := σ1.inFlight ++ [j] } := by
  simp only [step] at hstep
  split at hstep
  · cases hstep
    have hj : (pollStatus σ.app r).jobId = σ.app.jobId := pollStatus_jobId σ.app r
    have hl : (pollStatus σ.app r).isLoading = false := by
      cases r with
      | throws => rfl
      | ok d =>
        simp only [PollResult.endsJob, Bool.or_eq_true, beq_iff_eq] at hend
        simp only [pollStatus]
        split_ifs with h1 h2
        · rfl
        · rfl
        · exact absurd hend (by simp [h1, h2])
    refine ⟨by simpa [commit] using hl, by simpa [commit] using hj, by simp [commit, hj], ?_⟩
    intro j hjt
    simp [step, commit, hj, hjt]
  · cases hstep

theorem poll_end_keeps_timer_witness :
    (PollResult.ok completedPayload).endsJob = true
      ∧ step { sessionCompleted with inFlight := ["J1"] }
            (Event.pollResolved "J1" (PollResult.ok completedPayload)) = some sessionCompleted
      ∧ sessionCompleted.app.isLoading = false
      ∧ sessionCompleted.timer = some "J1"
      ∧ step sessionCompleted Event.tick = some { sessionCompleted with inFlight := ["J1"] } :=
  have hstep : step { sessionCompleted with inFlight := ["J1"] }
      (Event.pollResolved "J1" (PollResult.ok completedPayload)) = some sessionCompleted := by
    decide
  have h := poll_end_keeps_timer _ sessionCompleted "J1" (PollResult.ok completedPayload)
    (by decide) hstep
  ⟨by decide, hstep, h.1, h.2.2.1.trans (by decide), h.2.2.2 "J1" (by decide)⟩

/-! ## C4: a response that arrives after a reset -/

/-- C4 fails on the code: job `J1` completed, the timer (still running)
issued another status request, the user pressed `Convert Another`, and then
the response arrived. It is applied: the cleared state holds a status and
results again. -/
theorem late_response_not_dropped :
    run Session.initial traceLateResponse = some sessionLateResponse
      ∧ sessionLateResponse.app.status = some completedPayload
      ∧ sessionLateResponse.app.results = some [{ filename := "a.docx", folder := "r" }]
      ∧ ¬ IdleEmpty sessionLateResponse.app := by
  refine ⟨by decide, by decide, by decide, ?_⟩
  unfold IdleEmpty
  decide

/-- C4 as amended: a poll response that arrives after `handleReset` is
applied to the cleared state like any other response (the status is stored,
`completed` sets the results, `error` and a failed request set the error); it
does not bring the job back: `jobId` stays empty and no timer is running. -/
theorem late_response_applied (σ σ1 σ2 : Session) (job : String) (r : PollResult)
    (hreach : Reachable σ) (hreset : step σ Event.reset = some σ1)
    (hpoll : step σ1 (Event.pollResolved job r) = some σ2) :
    σ2.app = pollStatus AppState.initial r ∧ σ2.app.jobId = none ∧ σ2.timer = none
      ∧ step σ2 Event.tick = none := by
  have hr1 : Reachable σ1 := Reachable.next _ hreach hreset
  have hr2 : Reachable σ2 := Reachable.next _ hr1 hpoll
  have happ1 : σ1.app = AppState.initial := by
    simp only [step] at hreset
    split at hreset
    · cases hreset; rfl
    · cases hreset
  have happ2 : σ2.app = pollStatus AppState.initial r := by
    simp only [step] at hpoll
    split at hpoll
    · cases hpoll; simp [commit, happ1]
    · cases hpoll
  have hjob : σ2.app.jobId = none := by
    rw [happ2, pollStatus_jobId]; rfl
  have htimer : σ2.timer = none := by
    rw [reachable_timer hr2, hjob]; rfl
  refine ⟨happ2, hjob, htimer, ?_⟩
  simp [step, htimer]

theorem late_response_applied_witness :
    Reachable { sessionCompleted with inFlight := ["J1"] }
      ∧ step { sessionCompleted with inFlight := ["J1"] } Event.reset
          = some { Session.initial with inFlight := ["J1"] }
      ∧ step { Session.initial with inFlight := ["J1"] }
            (Event.pollResolved "J1" (PollResult.ok completedPayload))
          = some sessionLateResponse
      ∧ sessionLateResponse.app = pollStatus AppState.initial (PollResult.ok completedPayload)
      ∧ sessionLateResponse.app.jobId = none ∧ sessionLateResponse.timer = none
      ∧ step sessionLateResponse Event.tick = none :=
  have hreach : Reachable { sessionCompleted with inFlight := ["J1"] } :=
    reachable_run (traceCompleted ++ [Event.tick]) Reachable.init (by decide)
  have hreset : step { sessionCompleted with inFlight := ["J1"] } Event.reset
      = some { Session.initial with inFlight := ["J1"] } := by decide
  have hpoll : step { Session.initial with inFlight := ["J1"] }
      (Event.pollResolved "J1" (PollResult.ok completedPayload))
      = some sessionLateResponse := by decide
  ⟨hreach, hreset, hpoll, late_response_applied _ _ _ "J1" _ hreach hreset hpoll⟩

/-! ## C5: a new submission while a job is still held -/

/-- C5 fails on the code: job `J1` failed, the form came back and was
submitted again. `handleConvert` has begun and no new job id is recorded yet,
but the timer of `J1` is still set; it ticks, and the answer for `J1` puts the
error back and ends the busy state of the new submission. -/
theorem previous_job_polled_during_submit :
    run Session.initial traceResubmit = some sessionResubmit
      ∧ sessionResubmit.timer = some "J1"
      ∧ (run sessionResubmit
            [Event.tick, Event.pollResolved "J1" (PollResult.ok errorPayload)]).map
          (fun σ => (σ.app.error, σ.app.isLoading, σ.submits))
          = some (some "rate limited", false, 1) := by
  decide

/-- C5 as amended: when `handleConvert` begins, `jobId` and the timer of the
previous job are left as they were, and a response for a pending status
request is still applied to the state. The previous timer is cleared only when
the acknowledgment records a different `jobId`; the timer is then the one the
effect sets up for the new id. -/
theorem convert_keeps_previous_timer (σ σ1 : Session)
    (hstep : step σ Event.convert = some σ1) :
    σ1.app = handleConvertBegin σ.app ∧ σ1.app.jobId = σ.app.jobId ∧ σ1.timer = σ.timer
      ∧ σ1.inFlight = σ.inFlight
      ∧ (∀ job r, job ∈ σ1.inFlight →
          (step σ1 (Event.pollResolved job r)).map (fun σ2 => σ2.app)
            = some (pollStatus σ1.app r))
      ∧ (∀ err job_id, job_id ≠ σ1.app.jobId →
          (step σ1 (Event.convertResolved (SubmitResult.response true err job_id))).map
            (fun σ2 => σ2.timer) = some (pollingEffect job_id)) := by
  simp only [step] at hstep
  split at hstep
  · cases hstep
    refine ⟨rfl, rfl, by simp [commit, handleConvertBegin], rfl, ?_, ?_⟩
    · intro job r hmem
      have hmem1 : job ∈ σ.inFlight := hmem
      simp [step, commit, hmem1]
    · intro err job_id hne
      have hne1 : ¬ job_id = σ.app.jobId := hne
      simp [step, commit, handleConvertEnd, handleConvertBegin, hne1]
  · cases hstep

theorem convert_keeps_previous_timer_witness :
    step sessionFailed Event.convert
        = some { sessionResubmit with inFlight := ["J1"] }
      ∧ ({ sessionResubmit with inFlight := ["J1"] } : Session).timer = sessionFailed.timer
      ∧ (step { sessionResubmit with inFlight := ["J1"] }
            (Event.pollResolved "J1" (PollResult.ok errorPayload))).map (fun σ2 => σ2.app)
          = some (pollStatus sessionResubmit.app (PollResult.ok errorPayload))
      ∧ (step { sessionResubmit with inFlight := ["J1"] }
            (Event.convertResolved (SubmitResult.response true none (some "J2")))).map
            (fun σ2 => σ2.timer) = some (pollingEffect (some "J2")) :=
  have hstep : step sessionFailed Event.convert
      = some { sessionResubmit with inFlight := ["J1"] } := by decide
  have h := convert_keeps_previous_timer sessionFailed _ hstep
  ⟨hstep, h.2.2.1, h.2.2.2.2.1 "J1" (PollResult.ok errorPayload) (by decide),
    h.2.2.2.2.2 none (some "J2") (by decide)⟩

/-! ## C6: downloads -/

/-- C6 fails on the code: with one held artifact `a.docx`, `handleDownload`
called with `nope.docx` does not fail; it opens the download address of that
name. -/
theorem handleDownload_unknown_filename :
    ¬ ("nope.docx" ∈ ResultsPanel.fileNames [{ filename := "a.docx", folder := "r" }])
      ∧ sessionCompleted.app.results = some [{ filename := "a.docx", folder := "r" }]
      ∧ handleDownload sessionCompleted.app "nope.docx"
          = ["http://localhost:5000/api/download/J1/nope.docx"] := by
  decide

/-- C6 as amended: `handleDownload` has no failure path; for every filename,
held or not, it opens exactly one window, on
`API_BASE/download/<jobId>/<filename>`. The buttons of the results panel call
it only with filenames of the files they were rendered from: the button of a
row passes that row's filename, `Download All` passes every filename in
order. -/
theorem handleDownload_always_requests (s : AppState) (files : List FileEntry)
    (filename : String) (index : Nat) :
    handleDownload s filename
        = [API_BASE ++ "/download/" ++ jobIdText s.jobId ++ "/" ++ filename]
      ∧ (handleDownload s filename).length = 1
      ∧ (∀ f, ResultsPanel.downloadClick files index = some f →
          f ∈ ResultsPanel.fileNames files)
      ∧ ResultsPanel.downloadAll files = ResultsPanel.fileNames files := by
  refine ⟨rfl, rfl, ?_, rfl⟩
  intro f hf
  simp only [ResultsPanel.downloadClick, Option.map_eq_some'] at hf
  obtain ⟨file, hget, rfl⟩ := hf
  exact List.mem_map_of_mem _ (List.get?_mem hget)

theorem handleDownload_always_requests_witness :
    handleDownload sessionCompleted.app "a.docx"
        = ["http://localhost:5000/api/download/J1/a.docx"]
      ∧ "a.docx" ∈ ResultsPanel.fileNames [{ filename := "a.docx", folder := "r" }] :=
  have h := handleDownload_always_requests sessionCompleted.app
    [{ filename := "a.docx", folder := "r" }] "a.docx" 0
  ⟨h.1.trans (by decide), h.2.2.1 "a.docx" (by decide)⟩

/-! ## C7: a submission that fails -/

/-- C7 fails on the code: when the submit request itself is rejected there is
no server error field, yet the message is not the generic one; it is the
message of the exception. -/
theorem transport_failure_message :
    SubmitResult.failed (SubmitResult.throws "NetworkError when attempting to fetch resource.")
        = true
      ∧ (handleConvert AppState.initial
            (SubmitResult.throws "NetworkError when attempting to fetch resource.")).error
          = some "NetworkError when attempting to fetch resource."
      ∧ (handleConvert AppState.initial
            (SubmitResult.throws "NetworkError when attempting to fetch resource.")).error
          ≠ some "Failed to start conversion" := by
  decide

/-- C7 as amended: when submission fails, `handleConvert` ends Failed and not
busy, with `jobId` as it was before (so nothing is recorded and the timer is
not touched). The message is the server's `error` field when the response is
not ok and the field is a non-empty string, `Failed to start conversion` when
the response is not ok and the field is absent or empty, and the message of
the exception when the request or the parsing of its body was rejected. -/
theorem handleConvert_failure (s : AppState) (r : SubmitResult) (hfail : r.failed = true) :
    Failed (handleConvert s r) ∧ (handleConvert s r).isLoading = false
      ∧ (handleConvert s r).jobId = s.jobId
      ∧ (handleConvert s r).results = none
      ∧ pollingEffect (handleConvert s r).jobId = pollingEffect s.jobId
      ∧ (∀ message, r = SubmitResult.throws message →
          (handleConvert s r).error = some message)
      ∧ (∀ e job_id, r = SubmitResult.response false (some e) job_id → e ≠ "" →
          (handleConvert s r).error = some e)
      ∧ (∀ err job_id, r = SubmitResult.response false err job_id → truthy err = false →
          (handleConvert s r).error = some "Failed to start conversion") := by
  cases r with
  | throws m =>
    refine ⟨rfl, rfl, rfl, rfl, rfl, ?_, ?_, ?_⟩
    · intro message h; cases h; rfl
    · intro e j h; cases h
    · intro e j h; cases h
  | response ok err job =>
    cases ok with
    | true => simp [SubmitResult.failed] at hfail
    | false =>
      refine ⟨rfl, rfl, rfl, rfl, rfl, ?_, ?_, ?_⟩
      · intro message h; cases h
      · intro e j h hne
        cases h
        simp [handleConvert, handleConvertEnd, submitErrorMessage, hne]
      · intro e j h hfalsy
        cases h
        cases err with
        | none => rfl
        | some e =>
          have he : e = "" := by simpa [truthy] using hfalsy
          subst he
          rfl

theorem handleConvert_failure_witness :
    (SubmitResult.response false (some "bad token") none).failed = true
      ∧ Failed (handleConvert AppState.initial (SubmitResult.response false (some "bad token") none))
      ∧ (handleConvert AppState.initial
            (SubmitResult.response false (some "bad token") none)).error = some "bad token"
      ∧ (handleConvert AppState.initial
            (SubmitResult.response false (some "bad token") none)).jobId = none :=
  have h := handleConvert_failure AppState.initial
    (SubmitResult.response false (some "bad token") none) (by decide)
  ⟨by decide, h.1, h.2.2.2.2.2.2.1 "bad token" none rfl (by decide), h.2.2.1⟩

/-! ## C8 to C10: one poll response while Polling -/

/-- C8: a payload with status `completed` received while Polling gives the
Completed state: `results` is the payload's `files`, the same entries in the
same order, the component is not busy, no error is set, and the results panel
lists the filenames of those entries in that order. -/
theorem poll_completed (s : AppState) (data : StatusData) (files : List FileEntry)
    (hpolling : Polling s) (hstatus : data.status = some "completed")
    (hfiles : data.files = some files) :
    Completed (pollStatus s (PollResult.ok data))
      ∧ (pollStatus s (PollResult.ok data)).results = some files
      ∧ (pollStatus s (PollResult.ok data)).isLoading = false
      ∧ (pollStatus s (PollResult.ok data)).error = none
      ∧ ((pollStatus s (PollResult.ok data)).results.map ResultsPanel.fileNames
          = some (files.map FileEntry.filename)) := by
  obtain ⟨_, _, herr, _⟩ := hpolling
  simp [pollStatus, hstatus, hfiles, herr, Completed, ResultsPanel.fileNames]

theorem poll_completed_witness :
    Polling pollingJ1
      ∧ Completed (pollStatus pollingJ1 (PollResult.ok completedPayload))
      ∧ (pollStatus pollingJ1 (PollResult.ok completedPayload)).results
          = some [{ filename := "a.docx", folder := "r" }]
      ∧ (pollStatus pollingJ1 (PollResult.ok completedPayload)).results.map
            ResultsPanel.fileNames = some ["a.docx"] :=
  have hp : Polling pollingJ1 := by unfold Polling; decide
  have h := poll_completed pollingJ1 completedPayload [{ filename := "a.docx", folder := "r" }]
    hp rfl rfl
  ⟨hp, h.1, h.2.1, h.2.2.2.2⟩

/-- C9: a payload with status `error` received while Polling gives the Failed
state: `error` is the payload's `error` string itself, the component is not
busy, and no results are set. -/
theorem poll_error (s : AppState) (data : StatusData) (message : String)
    (hpolling : Polling s) (hstatus : data.status = some "error")
    (herror : data.error = some message) :
    Failed (pollStatus s (PollResult.ok data))
      ∧ (pollStatus s (PollResult.ok data)).error = some message
      ∧ (pollStatus s (PollResult.ok data)).isLoading = false
      ∧ (pollStatus s (PollResult.ok data)).results = none := by
  obtain ⟨_, _, _, hres⟩ := hpolling
  simp [pollStatus, hstatus, herror, hres, Failed]

theorem poll_error_witness :
    Polling pollingJ1
      ∧ Failed (pollStatus pollingJ1 (PollResult.ok errorPayload))
      ∧ (pollStatus pollingJ1 (PollResult.ok errorPayload)).error = some "rate limited"
      ∧ (pollStatus pollingJ1 (PollResult.ok errorPayload)).isLoading = false
      ∧ (pollStatus pollingJ1 (PollResult.ok errorPayload)).results = none :=
  have hp : Polling pollingJ1 := by unfold Polling; decide
  ⟨hp, poll_error pollingJ1 errorPayload "rate limited" hp rfl rfl⟩

/-- C10 fails on the code for the empty label: the payload `{status: ""}` is
neither `completed` nor `error` and its label is none of the four known ones,
but the text shown is `Working...`, not the label. -/
theorem empty_label_not_shown :
    emptyLabelPayload.status ≠ some "completed" ∧ emptyLabelPayload.status ≠ some "error"
      ∧ emptyLabelPayload.status = some ""
      ∧ ¬ ("" ∈ knownLabels)
      ∧ Polling (pollStatus pollingJ1 (PollResult.ok emptyLabelPayload))
      ∧ getStatusText (pollStatus pollingJ1 (PollResult.ok emptyLabelPayload)).status
          = "Working..."
      ∧ getStatusText (pollStatus pollingJ1 (PollResult.ok emptyLabelPayload)).status ≠ "" := by
  refine ⟨by decide, by decide, by decide, by decide, ?_, by decide, by decide⟩
  unfold Polling
  decide

theorem getStatusText_unknown (status : Option StatusData) (label : String)
    (hdetail : statusDetail status = some label) (hnew : ¬ (label ∈ knownLabels)) :
    getStatusText status = label := by
  simp only [knownLabels, List.mem_cons, List.mem_singleton, List.not_mem_nil, or_false,
    not_or] at hnew
  obtain ⟨h1, h2, h3, h4⟩ := hnew
  unfold getStatusText
  rw [hdetail]
  split
  · rename_i heq; exact absurd (Option.some.inj heq) h1
  · rename_i heq; exact absurd (Option.some.inj heq) h2
  · rename_i heq; exact absurd (Option.some.inj heq) h3
  · rename_i heq; exact absurd (Option.some.inj heq) h4
  · rename_i heq; exact (Option.some.inj heq).symm
  · rename_i heq; cases heq

theorem getStatusText_none (status : Option StatusData)
    (hdetail : statusDetail status = none) : getStatusText status = "Working..." := by
  unfold getStatusText
  rw [hdetail]

theorem statusDetail_ne_empty (status : Option StatusData) (label : String)
    (hdetail : statusDetail status = some label) : label ≠ "" := by
  unfold statusDetail at hdetail
  simp only at hdetail
  split at hdetail
  · rename_i ht
    rw [hdetail] at ht
    simpa [truthy] using ht
  · split at hdetail
    · rename_i ht
      rw [hdetail] at ht
      simpa [truthy] using ht
    · cases hdetail

/-- C10 as amended: a payload whose status is neither `completed` nor `error`
received while Polling leaves the component Polling (busy, no error, no
results, same job) with the held status replaced by the payload as a whole.
The label shown is `progress.detail_status` when that is a non-empty string
and otherwise `status`; a non-empty label that is none of `parsing_url`,
`counting_files`, `processing`, `saving` is shown unchanged, and when both
fields are absent or empty the text is `Working...`. -/
theorem poll_progress (s : AppState) (data : StatusData) (hpolling : Polling s)
    (hc : data.status ≠ some "completed") (he : data.status ≠ some "error") :
    Polling (pollStatus s (PollResult.ok data))
      ∧ (pollStatus s (PollResult.ok data)).status = some data
      ∧ (pollStatus s (PollResult.ok data)).jobId = s.jobId
      ∧ (∀ label, data.progress.bind (fun p => p.detail_status) = some label → label ≠ "" →
          ¬ (label ∈ knownLabels) →
          getStatusText (pollStatus s (PollResult.ok data)).status = label)
      ∧ (∀ label, truthy (data.progress.bind (fun p => p.detail_status)) = false →
          data.status = some label → label ≠ "" → ¬ (label ∈ knownLabels) →
          getStatusText (pollStatus s (PollResult.ok data)).status = label)
      ∧ (truthy (data.progress.bind (fun p => p.detail_status)) = false →
          truthy data.status = false →
          getStatusText (pollStatus s (PollResult.ok data)).status = "Working...") := by
  have hs : pollStatus s (PollResult.ok data) = { s with status := some data } := by
    simp [pollStatus, hc, he]
  rw [hs]
  refine ⟨hpolling, rfl, rfl, ?_, ?_, ?_⟩
  · intro label hd hne hnew
    apply getStatusText_unknown _ _ _ hnew
    simp [statusDetail, hd, truthy, hne]
  · intro label hd hst hne hnew
    apply getStatusText_unknown _ _ _ hnew
    simp only [statusDetail, Option.some_bind, hd, hst]
    simp [truthy, hne]
  · intro hd hst
    apply getStatusText_none
    simp only [statusDetail, Option.some_bind, hd, hst]
    simp

theorem poll_progress_witness :
    Polling pollingJ1
      ∧ Polling (pollStatus pollingJ1 (PollResult.ok unknownLabelPayload))
      ∧ (pollStatus pollingJ1 (PollResult.ok unknownLabelPayload)).status
          = some unknownLabelPayload
      ∧ getStatusText (pollStatus pollingJ1 (PollResult.ok unknownLabelPayload)).status
          = "cloning" :=
  have hp : Polling pollingJ1 := by unfold Polling; decide
  have h := poll_progress pollingJ1 unknownLabelPayload hp (by decide) (by decide)
  ⟨hp, h.1, h.2.1, h.2.2.2.1 "cloning" rfl (by decide) (by decide)⟩

/-! ## C11: reset -/

/-- C11: from every state `handleReset` gives the initial empty state (no job
id, no status, no results, no error, not busy). In a session whose timer is
the one the effect set up for the held `jobId` (every reachable session is
such), no timer is running after the reset, so no tick can follow. Resetting
twice gives the same state, and the same session, as resetting once. -/
theorem handleReset_initial (σ : Session) (htimer : σ.timer = pollingEffect σ.app.jobId) :
    handleReset σ.app = AppState.initial
      ∧ (handleReset σ.app).jobId = none ∧ (handleReset σ.app).status = none
      ∧ (handleReset σ.app).results = none ∧ (handleReset σ.app).error = none
      ∧ (handleReset σ.app).isLoading = false
      ∧ (commit σ (handleReset σ.app)).timer = none
      ∧ step (commit σ (handleReset σ.app)) Event.tick = none
      ∧ handleReset (handleReset σ.app) = handleReset σ.app
      ∧ commit (commit σ (handleReset σ.app)) (handleReset (commit σ (handleReset σ.app)).app)
          = commit σ (handleReset σ.app) := by
  have ht : (commit σ (handleReset σ.app)).timer = none := by
    have h := commit_timer σ (handleReset σ.app) htimer
    rw [h]
    rfl
  refine ⟨rfl, rfl, rfl, rfl, rfl, rfl, ht, ?_, rfl, ?_⟩
  · simp [step, ht]
  · simp [commit, handleReset]

theorem handleReset_initial_witness :
    sessionCompleted.timer = pollingEffect sessionCompleted.app.jobId
      ∧ handleReset sessionCompleted.app = AppState.initial
      ∧ (commit sessionCompleted (handleReset sessionCompleted.app)).timer = none
      ∧ step (commit sessionCompleted (handleReset sessionCompleted.app)) Event.tick = none :=
  have ht : sessionCompleted.timer = pollingEffect sessionCompleted.app.jobId := by decide
  have h := handleReset_initial sessionCompleted ht
  ⟨ht, h.1, h.2.2.2.2.2.2.1, h.2.2.2.2.2.2.2.1⟩

/-! ## C12: the percentage -/

theorem roundHalfEven_intCast (n : ℤ) : roundHalfEven (n : ℚ) = n := by
  simp [roundHalfEven]

theorem floor_le_roundHalfEven (x : ℚ) : ⌊x⌋ ≤ roundHalfEven x := by
  unfold roundHalfEven
  simp only
  split_ifs <;> omega

theorem roundHalfEven_le_floor_add_one (x : ℚ) : roundHalfEven x ≤ ⌊x⌋ + 1 := by
  unfold roundHalfEven
  simp only
  split_ifs <;> omega

theorem roundHalfEven_mono {x y : ℚ} (h : x ≤ y) : roundHalfEven x ≤ roundHalfEven y := by
  have hf : ⌊x⌋ ≤ ⌊y⌋ := Int.floor_mono h
  rcases lt_or_eq_of_le hf with hlt | heq
  · calc roundHalfEven x ≤ ⌊x⌋ + 1 := roundHalfEven_le_floor_add_one x
      _ ≤ ⌊y⌋ := hlt
      _ ≤ roundHalfEven y := floor_le_roundHalfEven y
  · unfold roundHalfEven
    simp only
    rw [heq]
    split_ifs <;> first | omega | (exfalso; linarith)

theorem ulp_pos (x : ℚ) : 0 < ulp x := by
  unfold ulp
  positivity

theorem lt_zpow_binade_succ (x : ℚ) : |x| < 2 ^ (binade x + 1) := by
  have h1 : |x| < ((2 : ℕ) : ℚ) ^ (Int.log 2 |x| + 1) := Int.lt_zpow_succ_log_self (by norm_num) _
  have h2 : ((2 : ℕ) : ℚ) ^ (Int.log 2 |x| + 1) ≤ ((2 : ℕ) : ℚ) ^ (binade x + 1) :=
    zpow_le_zpow_right₀ (by norm_num) (by unfold binade; omega)
  exact_mod_cast lt_of_lt_of_le h1 h2

theorem zpow_binade_le {x : ℚ} (hx : 0 < |x|) (h : -1022 < binade x) : 2 ^ binade x ≤ |x| := by
  have hb : binade x = Int.log 2 |x| := by
    unfold binade at h ⊢
    omega
  rw [hb]
  have := Int.zpow_log_le_self (b := 2) (r := |x|) (by norm_num) hx
  exact_mod_cast this

theorem binade_mono {x y : ℚ} (hx : 0 < x) (h : x ≤ y) : binade x ≤ binade y := by
  unfold binade
  have hy : 0 < y := lt_of_lt_of_le hx h
  rw [abs_of_pos hx, abs_of_pos hy]
  exact max_le_max (Int.log_mono_right hx h) le_rfl

theorem binade_eq {x : ℚ} (e : ℤ) (he : -1022 ≤ e) (hlo : 2 ^ e ≤ |x|) (hhi : |x| < 2 ^ (e + 1)) :
    binade x = e := by
  have hpos : 0 < |x| := lt_of_lt_of_le (by positivity) hlo
  have h1 : e ≤ Int.log 2 |x| := by
    rw [← Int.zpow_le_iff_le_log (by norm_num) hpos]
    exact_mod_cast hlo
  have h2 : Int.log 2 |x| < e + 1 := by
    rw [← Int.lt_zpow_iff_log_lt (by norm_num) hpos]
    exact_mod_cast hhi
  unfold binade
  omega

theorem nearestDouble_zero : nearestDouble 0 = 0 := by
  simp [nearestDouble, roundHalfEven]

theorem nearestDouble_zpow (k : ℤ) (hk : -1022 ≤ k) : nearestDouble (2 ^ k) = 2 ^ k := by
  have hb : binade ((2 : ℚ) ^ k) = k := by
    apply binade_eq k hk
    · rw [abs_of_pos (by positivity)]
    · rw [abs_of_pos (by positivity)]
      exact zpow_lt_zpow_right₀ (by norm_num) (by omega)
  have hq : (2 : ℚ) ^ k / 2 ^ (k - 52) = (((2 : ℤ) ^ 52 : ℤ) : ℚ) := by
    rw [← zpow_sub₀ (by norm_num)]
    have : k - (k - 52) = 52 := by ring
    rw [this]
    norm_num
  unfold nearestDouble ulp
  rw [hb, hq, roundHalfEven_intCast]
  have : ((((2 : ℤ) ^ 52 : ℤ) : ℚ)) = (2 : ℚ) ^ (52 : ℤ) := by norm_num
  rw [this, ← zpow_add₀ (by norm_num)]
  congr 1
  ring

theorem nearestDouble_mono {x y : ℚ} (h0 : 0 ≤ x) (h : x ≤ y) :
    nearestDouble x ≤ nearestDouble y := by
  have hy0 : 0 ≤ y := le_trans h0 h
  rcases eq_or_lt_of_le h0 with hx | hx
  · rw [← hx, nearestDouble_zero]
    unfold nearestDouble
    apply mul_nonneg _ (le_of_lt (ulp_pos y))
    have h1 : roundHalfEven 0 ≤ roundHalfEven (y / ulp y) :=
      roundHalfEven_mono (div_nonneg hy0 (le_of_lt (ulp_pos y)))
    have h2 : roundHalfEven 0 = 0 := by simp [roundHalfEven]
    rw [h2] at h1
    exact_mod_cast h1
  · have hy : 0 < y := lt_of_lt_of_le hx h
    rcases eq_or_lt_of_le (binade_mono hx h) with he | he
    · have hu : ulp x = ulp y := by unfold ulp; rw [he]
      unfold nearestDouble
      rw [hu]
      apply mul_le_mul_of_nonneg_right _ (le_of_lt (ulp_pos y))
      exact_mod_cast roundHalfEven_mono (div_le_div_of_nonneg_right h (le_of_lt (ulp_pos y)))
    · have hxa : nearestDouble x ≤ 2 ^ (binade x + 1) := by
        have hlt : x < 2 ^ (binade x + 1) := by
          have := lt_zpow_binade_succ x
          rwa [abs_of_pos hx] at this
        have hq : x / ulp x ≤ (((2 : ℤ) ^ 53 : ℤ) : ℚ) := by
          rw [div_le_iff₀ (ulp_pos x)]
          unfold ulp
          have : (((2 : ℤ) ^ 53 : ℤ) : ℚ) = (2 : ℚ) ^ (53 : ℤ) := by norm_num
          rw [this, ← zpow_add₀ (by norm_num)]
          have he2 : (53 : ℤ) + (binade x - 52) = binade x + 1 := by ring
          rw [he2]
          exact le_of_lt hlt
        have hr := roundHalfEven_mono hq
        rw [roundHalfEven_intCast] at hr
        have hr2 : ((roundHalfEven (x / ulp x) : ℤ) : ℚ) ≤ (2 : ℚ) ^ (53 : ℤ) := by
          have h53 : ((roundHalfEven (x / ulp x) : ℤ) : ℚ) ≤ (((2 : ℤ) ^ 53 : ℤ) : ℚ) :=
            Int.cast_le.mpr hr
          exact le_trans h53 (le_of_eq (by norm_num))
        unfold nearestDouble
        calc (roundHalfEven (x / ulp x) : ℚ) * ulp x
            ≤ (2 : ℚ) ^ (53 : ℤ) * ulp x :=
              mul_le_mul_of_nonneg_right hr2 (le_of_lt (ulp_pos x))
          _ = 2 ^ (binade x + 1) := by
              unfold ulp
              rw [← zpow_add₀ (by norm_num)]
              congr 1
              ring
      have hyb : 2 ^ binade y ≤ nearestDouble y := by
        have hge : (2 : ℚ) ^ binade y ≤ y := by
          have := zpow_binade_le (x := y) (by rw [abs_of_pos hy]; exact hy)
            (by unfold binade at he ⊢; omega)
          rwa [abs_of_pos hy] at this
        have hq : (((2 : ℤ) ^ 52 : ℤ) : ℚ) ≤ y / ulp y := by
          rw [le_div_iff₀ (ulp_pos y)]
          unfold ulp
          have : (((2 : ℤ) ^ 52 : ℤ) : ℚ) = (2 : ℚ) ^ (52 : ℤ) := by norm_num
          rw [this, ← zpow_add₀ (by norm_num)]
          have he2 : (52 : ℤ) + (binade y - 52) = binade y := by ring
          rw [he2]
          exact hge
        have hr := roundHalfEven_mono hq
        rw [roundHalfEven_intCast] at hr
        have hr2 : (2 : ℚ) ^ (52 : ℤ) ≤ ((roundHalfEven (y / ulp y) : ℤ) : ℚ) := by
          have h52 : (((2 : ℤ) ^ 52 : ℤ) : ℚ) ≤ ((roundHalfEven (y / ulp y) : ℤ) : ℚ) :=
            Int.cast_le.mpr hr
          exact le_trans (le_of_eq (by norm_num)) h52
        unfold nearestDouble
        calc (2 : ℚ) ^ binade y = (2 : ℚ) ^ (52 : ℤ) * ulp y := by
              unfold ulp
              rw [← zpow_add₀ (by norm_num)]
              congr 1
              ring
          _ ≤ (roundHalfEven (y / ulp y) : ℚ) * ulp y :=
              mul_le_mul_of_nonneg_right hr2 (le_of_lt (ulp_pos y))
      calc nearestDouble x ≤ 2 ^ (binade x + 1) := hxa
        _ ≤ 2 ^ binade y := zpow_le_zpow_right₀ (by norm_num) (by omega)
        _ ≤ nearestDouble y := hyb

theorem roundHalfEven_eq_of_lt {x : ℚ} (n : ℤ) (h1 : (n : ℚ) - 1 / 2 < x)
    (h2 : x < (n : ℚ) + 1 / 2) : roundHalfEven x = n := by
  have hf1 : n - 1 ≤ ⌊x⌋ := by
    rw [Int.le_floor]
    push_cast
    linarith
  have hf2 : ⌊x⌋ < n + 1 := by
    rw [Int.floor_lt]
    push_cast
    linarith
  have hfl : (⌊x⌋ : ℚ) ≤ x := Int.floor_le x
  have hfu : x < (⌊x⌋ : ℚ) + 1 := Int.lt_floor_add_one x
  rcases (by omega : ⌊x⌋ = n ∨ ⌊x⌋ = n - 1) with hf | hf
  · unfold roundHalfEven
    simp only
    rw [hf, if_pos (by linarith)]
  · have hc : ((⌊x⌋ : ℤ) : ℚ) = (n : ℚ) - 1 := by rw [hf]; push_cast; ring
    unfold roundHalfEven
    simp only
    rw [if_neg (by rw [hc]; linarith), if_pos (by rw [hc]; linarith), hf]
    ring

theorem nearestDouble_eq {x : ℚ} (e n : ℤ) (he : -1022 ≤ e) (hlo : 2 ^ e ≤ x)
    (hhi : x < 2 ^ (e + 1)) (h1 : (n : ℚ) - 1 / 2 < x / 2 ^ (e - 52))
    (h2 : x / 2 ^ (e - 52) < (n : ℚ) + 1 / 2) : nearestDouble x = n * 2 ^ (e - 52) := by
  have hx : 0 < x := lt_of_lt_of_le (by positivity) hlo
  have hb : binade x = e := binade_eq e he (by rwa [abs_of_pos hx]) (by rwa [abs_of_pos hx])
  unfold nearestDouble ulp
  rw [hb, roundHalfEven_eq_of_lt n h1 h2]

theorem nearestDouble_three : nearestDouble 3 = 3 := by
  rw [nearestDouble_eq 1 6755399441055744 (by norm_num) (by norm_num) (by norm_num)
    (by norm_num) (by norm_num)]
  norm_num

theorem nearestDouble_seven : nearestDouble 7 = 7 := by
  rw [nearestDouble_eq 2 7881299347898368 (by norm_num) (by norm_num) (by norm_num)
    (by norm_num) (by norm_num)]
  norm_num

theorem nearestDouble_ten : nearestDouble 10 = 10 := by
  rw [nearestDouble_eq 3 5629499534213120 (by norm_num) (by norm_num) (by norm_num)
    (by norm_num) (by norm_num)]
  norm_num

theorem nearestDouble_one : nearestDouble 1 = 1 := by
  simpa using nearestDouble_zpow 0 (by norm_num)

theorem nearestDouble_hundred : nearestDouble 100 = 100 := by
  rw [nearestDouble_eq 6 7036874417766400 (by norm_num) (by norm_num) (by norm_num)
    (by norm_num) (by norm_num)]
  norm_num

theorem nearestDouble_three_tenths :
    nearestDouble (3 / 10) = 5404319552844595 / 18014398509481984 := by
  rw [nearestDouble_eq (-2) 5404319552844595 (by norm_num) (by norm_num) (by norm_num)
    (by norm_num) (by norm_num)]
  norm_num

theorem nearestDouble_seven_tenths :
    nearestDouble (7 / 10) = 6305039478318694 / 9007199254740992 := by
  rw [nearestDouble_eq (-1) 6305039478318694 (by norm_num) (by norm_num) (by norm_num)
    (by norm_num) (by norm_num)]
  norm_num

theorem nearestDouble_three_tenths_scaled :
    nearestDouble (5404319552844595 / 18014398509481984 * 100) = 30 := by
  rw [nearestDouble_eq 4 8444249301319680 (by norm_num) (by norm_num) (by norm_num)
    (by norm_num) (by norm_num)]
  norm_num

theorem nearestDouble_seven_tenths_scaled :
    nearestDouble (6305039478318694 / 9007199254740992 * 100) = 70 := by
  rw [nearestDouble_eq 6 4925812092436480 (by norm_num) (by norm_num) (by norm_num)
    (by norm_num) (by norm_num)]
  norm_num

theorem nearestDouble_twentythree : nearestDouble 23 = 23 := by
  rw [nearestDouble_eq 4 6473924464345088 (by norm_num) (by norm_num) (by norm_num)
    (by norm_num) (by norm_num)]
  norm_num

theorem nearestDouble_forty : nearestDouble 40 = 40 := by
  rw [nearestDouble_eq 5 5629499534213120 (by norm_num) (by norm_num) (by norm_num)
    (by norm_num) (by norm_num)]
  norm_num

theorem nearestDouble_twentythree_fortieths :
    nearestDouble (23 / 40) = 2589569785738035 / 4503599627370496 := by
  rw [nearestDouble_eq (-1) 5179139571476070 (by norm_num) (by norm_num) (by norm_num)
    (by norm_num) (by norm_num)]
  norm_num

theorem nearestDouble_twentythree_fortieths_scaled :
    nearestDouble (2589569785738035 / 4503599627370496 * 100)
      = 8092405580431359 / 140737488355328 := by
  rw [nearestDouble_eq 5 8092405580431359 (by norm_num) (by norm_num) (by norm_num)
    (by norm_num) (by norm_num)]
  norm_num

theorem nearestDouble_nonneg {x : ℚ} (h0 : 0 ≤ x) : 0 ≤ nearestDouble x := by
  have := nearestDouble_mono le_rfl h0
  rwa [nearestDouble_zero] at this

theorem toNumber_zero : toNumber 0 = JSNumber.finite 0 := by
  unfold toNumber
  rw [nearestDouble_zero]
  norm_num

theorem toNumber_nonneg_cases {x : ℚ} (h0 : 0 ≤ x) :
    (toNumber x = JSNumber.finite (nearestDouble x) ∧ nearestDouble x < 2 ^ 1024)
      ∨ (toNumber x = JSNumber.posInf ∧ 2 ^ 1024 ≤ nearestDouble x ∧ 0 < x) := by
  have hn := nearestDouble_nonneg h0
  unfold toNumber
  rw [abs_of_nonneg hn]
  by_cases h : nearestDouble x < 2 ^ 1024
  · left
    exact ⟨by rw [if_pos h], h⟩
  · right
    have hx : 0 < x := by
      rcases eq_or_lt_of_le h0 with h1 | h1
      · exfalso
        apply h
        rw [← h1, nearestDouble_zero]
        norm_num
      · exact h1
    exact ⟨by rw [if_neg h, if_pos hx], not_lt.mp h, hx⟩

theorem toNumber_nonnegLe {x y : ℚ} (h0 : 0 ≤ x) (h : x ≤ y) :
    NonnegLe (toNumber x) (toNumber y) := by
  have hm := nearestDouble_mono h0 h
  have hx0 := nearestDouble_nonneg h0
  rcases toNumber_nonneg_cases h0 with ⟨ex, _⟩ | ⟨ex, hxb, _⟩
  · rcases toNumber_nonneg_cases (le_trans h0 h) with ⟨ey, _⟩ | ⟨ey, _, _⟩
    · rw [ex, ey]
      exact ⟨hx0, hm⟩
    · rw [ex, ey]
      exact hx0
  · rcases toNumber_nonneg_cases (le_trans h0 h) with ⟨ey, hyb⟩ | ⟨ey, _, _⟩
    · exfalso
      exact absurd (lt_of_le_of_lt (le_trans hxb hm) hyb) (lt_irrefl _)
    · rw [ex, ey]
      trivial

theorem jsDiv_nonnegLe {a b : JSNumber} {t : ℚ} (ht : 0 < t) (h : NonnegLe a b) :
    NonnegLe (jsDiv a (JSNumber.finite t)) (jsDiv b (JSNumber.finite t)) := by
  have hne : t ≠ 0 := ne_of_gt ht
  cases a with
  | finite u =>
    cases b with
    | finite v =>
      obtain ⟨hu, huv⟩ := h
      simp only [jsDiv, hne, if_false]
      exact toNumber_nonnegLe (div_nonneg hu (le_of_lt ht))
        (div_le_div_of_nonneg_right huv (le_of_lt ht))
    | posInf =>
      have hu : 0 ≤ u := h
      simp only [jsDiv, hne, if_false, signedInf]
      have hq := toNumber_nonneg_cases (div_nonneg hu (le_of_lt ht))
      rcases hq with ⟨e, _⟩ | ⟨e, _, _⟩
      · rw [e]
        simp only [zero_le_one, le_of_lt ht, if_true]
        exact nearestDouble_nonneg (div_nonneg hu (le_of_lt ht))
      · rw [e]
        simp only [zero_le_one, le_of_lt ht, if_true]
        trivial
    | negInf => exact absurd h (by simp [NonnegLe])
    | nan => exact absurd h (by simp [NonnegLe])
  | posInf =>
    cases b with
    | posInf =>
      simp only [jsDiv, signedInf, zero_le_one, le_of_lt ht, if_true]
      trivial
    | finite v => exact absurd h (by simp [NonnegLe])
    | negInf => exact absurd h (by simp [NonnegLe])
    | nan => exact absurd h (by simp [NonnegLe])
  | negInf => exact absurd h (by simp [NonnegLe])
  | nan => exact absurd h (by simp [NonnegLe])

theorem jsMul_nonnegLe {a b : JSNumber} {c : ℚ} (hc : 0 < c) (h : NonnegLe a b) :
    NonnegLe (jsMul a (JSNumber.finite c)) (jsMul b (JSNumber.finite c)) := by
  have hne : c ≠ 0 := ne_of_gt hc
  cases a with
  | finite u =>
    cases b with
    | finite v =>
      obtain ⟨hu, huv⟩ := h
      simp only [jsMul]
      exact toNumber_nonnegLe (mul_nonneg hu (le_of_lt hc))
        (mul_le_mul_of_nonneg_right huv (le_of_lt hc))
    | posInf =>
      have hu : 0 ≤ u := h
      simp only [jsMul, hne, if_false, signedInf, zero_le_one, le_of_lt hc, if_true]
      have hq := toNumber_nonneg_cases (mul_nonneg hu (le_of_lt hc))
      rcases hq with ⟨e, _⟩ | ⟨e, _, _⟩
      · rw [e]
        exact nearestDouble_nonneg (mul_nonneg hu (le_of_lt hc))
      · rw [e]
        trivial
    | negInf => exact absurd h (by simp [NonnegLe])
    | nan => exact absurd h (by simp [NonnegLe])
  | posInf =>
    cases b with
    | posInf =>
      simp only [jsMul, hne, if_false, signedInf, zero_le_one, le_of_lt hc, if_true]
      trivial
    | finite v => exact absurd h (by simp [NonnegLe])
    | negInf => exact absurd h (by simp [NonnegLe])
    | nan => exact absurd h (by simp [NonnegLe])
  | negInf => exact absurd h (by simp [NonnegLe])
  | nan => exact absurd h (by simp [NonnegLe])

theorem Math.round_nonnegLe {a b : JSNumber} (h : NonnegLe a b) :
    NonnegLe (Math.round a) (Math.round b) := by
  cases a with
  | finite u =>
    cases b with
    | finite v =>
      obtain ⟨hu, huv⟩ := h
      simp only [Math.round, NonnegLe]
      constructor
      · exact_mod_cast Int.floor_nonneg.mpr (by linarith : (0 : ℚ) ≤ u + 1 / 2)
      · exact_mod_cast Int.floor_mono (by linarith : u + 1 / 2 ≤ v + 1 / 2)
    | posInf =>
      have hu : 0 ≤ u := h
      simp only [Math.round, NonnegLe]
      exact_mod_cast Int.floor_nonneg.mpr (by linarith : (0 : ℚ) ≤ u + 1 / 2)
    | negInf => exact absurd h (by simp [NonnegLe])
    | nan => exact absurd h (by simp [NonnegLe])
  | posInf =>
    cases b with
    | posInf => trivial
    | finite v => exact absurd h (by simp [NonnegLe])
    | negInf => exact absurd h (by simp [NonnegLe])
    | nan => exact absurd h (by simp [NonnegLe])
  | negInf => exact absurd h (by simp [NonnegLe])
  | nan => exact absurd h (by simp [NonnegLe])

theorem NonnegLe.le {a b : JSNumber} (h : NonnegLe a b) : a.le b := by
  cases a <;> cases b <;> simp_all [NonnegLe, JSNumber.le]

theorem nearestDouble_one_le {x : ℚ} (h : 1 ≤ x) : 1 ≤ nearestDouble x := by
  have := nearestDouble_mono zero_le_one h
  rwa [nearestDouble_one] at this

theorem percentage_le_of_le (total p1 p2 : ℤ) (ht0 : 0 < total) (h0 : 0 ≤ p1) (h12 : p1 ≤ p2)
    (hfin : ¬ (toNumber total = JSNumber.posInf ∧ toNumber p2 = JSNumber.posInf)) :
    (percentage (progressOf p1 total)).le (percentage (progressOf p2 total)) := by
  have ht1 : (1 : ℚ) ≤ total := by exact_mod_cast ht0
  have hP : NonnegLe (toNumber p1) (toNumber p2) :=
    toNumber_nonnegLe (by exact_mod_cast h0) (by exact_mod_cast h12)
  rcases toNumber_nonneg_cases (le_trans zero_le_one ht1) with ⟨eT, _⟩ | ⟨eT, _, _⟩
  · have hTpos : 0 < nearestDouble (total : ℚ) :=
      lt_of_lt_of_le zero_lt_one (nearestDouble_one_le ht1)
    simp only [percentage, progressOf, countNumber, eT, jsPositive, hTpos, decide_True,
      if_true]
    exact (Math.round_nonnegLe (jsMul_nonnegLe (by norm_num) (jsDiv_nonnegLe hTpos hP))).le
  · have h2 : toNumber (p2 : ℚ) ≠ JSNumber.posInf := fun h => hfin ⟨eT, h⟩
    simp only [percentage, progressOf, countNumber, eT, jsPositive, if_true]
    cases e1 : toNumber (p1 : ℚ) with
    | finite u =>
      cases e2 : toNumber (p2 : ℚ) with
      | finite v =>
        simp only [jsDiv, jsMul, zero_mul, toNumber_zero, Math.round, JSNumber.le]
        exact le_rfl
      | posInf => exact absurd e2 h2
      | negInf => rw [e1, e2] at hP; exact absurd hP (by simp [NonnegLe])
      | nan => rw [e1, e2] at hP; exact absurd hP (by simp [NonnegLe])
    | posInf =>
      cases e2 : toNumber (p2 : ℚ) with
      | posInf => exact absurd e2 h2
      | finite v => rw [e1, e2] at hP; exact absurd hP (by simp [NonnegLe])
      | negInf => rw [e1, e2] at hP; exact absurd hP (by simp [NonnegLe])
      | nan => rw [e1, e2] at hP; exact absurd hP (by simp [NonnegLe])
    | negInf => rw [e1] at hP; exact absurd hP (by cases toNumber (p2 : ℚ) <;> simp [NonnegLe])
    | nan => rw [e1] at hP; exact absurd hP (by cases toNumber (p2 : ℚ) <;> simp [NonnegLe])

theorem percentage_of_total_nonpos (total : ℤ) (processed : Option ℤ) (c d : Option String)
    (ht : total ≤ 0) :
    percentage { processed := processed, total := some total, current_file := c,
                 detail_status := d } = JSNumber.finite 0 := by
  have htq : (total : ℚ) ≤ 0 := by exact_mod_cast ht
  have hpos : jsPositive (toNumber (total : ℚ)) = false := by
    unfold toNumber
    have hn : nearestDouble (total : ℚ) ≤ 0 := by
      unfold nearestDouble
      apply mul_nonpos_of_nonpos_of_nonneg _ (le_of_lt (ulp_pos _))
      have h1 : roundHalfEven ((total : ℚ) / ulp (total : ℚ)) ≤ roundHalfEven 0 :=
        roundHalfEven_mono (div_nonpos_of_nonpos_of_nonneg htq (le_of_lt (ulp_pos _)))
      have h2 : roundHalfEven 0 = 0 := by simp [roundHalfEven]
      rw [h2] at h1
      exact_mod_cast h1
    split_ifs with h1 h2
    · simp [jsPositive, not_lt.mpr hn]
    · exact absurd h2 (not_lt.mpr htq)
    · rfl
  simp [percentage, countNumber, hpos]

theorem abs_roundHalfEven_sub_le (y : ℚ) : |(roundHalfEven y : ℚ) - y| ≤ 1 / 2 := by
  have hfl : (⌊y⌋ : ℚ) ≤ y := Int.floor_le y
  have hfu : y < (⌊y⌋ : ℚ) + 1 := Int.lt_floor_add_one y
  rw [abs_le]
  unfold roundHalfEven
  simp only
  split_ifs with h1 h2 h3
  · constructor <;> linarith
  · constructor <;> push_cast <;> linarith
  · constructor <;> linarith
  · have h4 : y - (⌊y⌋ : ℚ) = 1 / 2 := le_antisymm (not_lt.mp h2) (not_lt.mp h1)
    constructor <;> push_cast <;> linarith

theorem abs_nearestDouble_sub_le (x : ℚ) : |nearestDouble x - x| ≤ ulp x / 2 := by
  have hu := ulp_pos x
  have h := abs_roundHalfEven_sub_le (x / ulp x)
  have e : nearestDouble x - x = ((roundHalfEven (x / ulp x) : ℚ) - x / ulp x) * ulp x := by
    unfold nearestDouble
    field_simp
  rw [e, abs_mul, abs_of_pos hu]
  calc |(roundHalfEven (x / ulp x) : ℚ) - x / ulp x| * ulp x ≤ 1 / 2 * ulp x :=
        mul_le_mul_of_nonneg_right h (le_of_lt hu)
    _ = ulp x / 2 := by ring

theorem ulp_le_mul {x : ℚ} (h : 2 ^ (-1021 : ℤ) ≤ x) : ulp x ≤ x * 2 ^ (-52 : ℤ) := by
  have hx : 0 < x := lt_of_lt_of_le (by positivity) h
  have hlog : (-1021 : ℤ) ≤ Int.log 2 |x| := by
    rw [← Int.zpow_le_iff_le_log (by norm_num) (by rw [abs_of_pos hx]; exact hx)]
    rw [abs_of_pos hx]
    exact_mod_cast h
  have hb : -1022 < binade x := by
    unfold binade
    omega
  have hle := zpow_binade_le (x := x) (by rw [abs_of_pos hx]; exact hx) hb
  rw [abs_of_pos hx] at hle
  unfold ulp
  have e : binade x - 52 = binade x + (-52) := by ring
  rw [e, zpow_add₀ (by norm_num)]
  exact mul_le_mul_of_nonneg_right hle (by positivity)

theorem abs_nearestDouble_sub_le_mul {x : ℚ} (h : 2 ^ (-1021 : ℤ) ≤ x) :
    |nearestDouble x - x| ≤ x * 2 ^ (-53 : ℤ) := by
  calc |nearestDouble x - x| ≤ ulp x / 2 := abs_nearestDouble_sub_le x
    _ ≤ x * 2 ^ (-52 : ℤ) / 2 := div_le_div_of_nonneg_right (ulp_le_mul h) (by norm_num)
    _ = x * 2 ^ (-53 : ℤ) := by
        have e : (2 : ℚ) ^ (-52 : ℤ) = 2 * 2 ^ (-53 : ℤ) := by norm_num
        rw [e]
        ring

theorem nearestDouble_of_div_ulp {x : ℚ} (m : ℤ) (h : x / ulp x = m) : nearestDouble x = x := by
  unfold nearestDouble
  rw [h, roundHalfEven_intCast, ← h]
  exact div_mul_cancel₀ x (ne_of_gt (ulp_pos x))

theorem nearestDouble_intCast (n : ℤ) (h0 : 0 ≤ n) (h : n ≤ 2 ^ 53) : nearestDouble n = n := by
  rcases eq_or_lt_of_le h0 with hz | hpos
  · rw [← hz]
    simpa using nearestDouble_zero
  · have hq1 : (1 : ℚ) ≤ n := by exact_mod_cast hpos
    have hq0 : (0 : ℚ) < n := lt_of_lt_of_le zero_lt_one hq1
    have hq53 : (n : ℚ) ≤ 2 ^ (53 : ℤ) := by
      have : (n : ℚ) ≤ (((2 : ℤ) ^ 53 : ℤ) : ℚ) := Int.cast_le.mpr h
      exact le_trans this (le_of_eq (by norm_num))
    have hb0 : 0 ≤ binade (n : ℚ) := by
      have h1 := binade_mono zero_lt_one hq1
      have h2 : binade (1 : ℚ) = 0 := by
        apply binade_eq 0 (by norm_num) <;> norm_num
      omega
    have hb53 : binade (n : ℚ) ≤ 53 := by
      have h1 := binade_mono hq0 hq53
      have h2 : binade ((2 : ℚ) ^ (53 : ℤ)) = 53 := by
        apply binade_eq 53 (by norm_num)
        · rw [abs_of_pos (by positivity)]
        · rw [abs_of_pos (by positivity)]
          exact zpow_lt_zpow_right₀ (by norm_num) (by norm_num)
      omega
    rcases eq_or_lt_of_le hb53 with he | he
    · have hle := zpow_binade_le (x := (n : ℚ)) (by rw [abs_of_pos hq0]; exact hq0)
        (by omega)
      rw [abs_of_pos hq0, he] at hle
      have hn : (n : ℚ) = 2 ^ (53 : ℤ) := le_antisymm hq53 hle
      rw [hn]
      exact nearestDouble_zpow 53 (by norm_num)
    · obtain ⟨k, hk⟩ := Int.eq_ofNat_of_zero_le (show 0 ≤ 52 - binade (n : ℚ) by omega)
      apply nearestDouble_of_div_ulp (n * 2 ^ k)
      unfold ulp
      have e : binade (n : ℚ) - 52 = -(k : ℤ) := by omega
      rw [e, zpow_neg, div_inv_eq_mul, zpow_natCast]
      push_cast
      ring

theorem floor_of_close (N d : ℤ) (hd : 0 < d) (m : ℚ)
    (h : |m - (N : ℚ) / d| < 1 / d) :
    ⌊m⌋ = ⌊(N : ℚ) / d⌋
      ∨ (⌊m⌋ = ⌊(N : ℚ) / d⌋ - 1 ∧ (N : ℚ) / d = (⌊(N : ℚ) / d⌋ : ℤ)) := by
  have hdq : (0 : ℚ) < d := by exact_mod_cast hd
  obtain ⟨hlo, hhi⟩ := abs_lt.mp h
  have hS1 : ((⌊(N : ℚ) / d⌋ : ℤ) : ℚ) ≤ (N : ℚ) / d := Int.floor_le _
  have hS2 : (N : ℚ) / d < ((⌊(N : ℚ) / d⌋ : ℤ) : ℚ) + 1 := Int.lt_floor_add_one _
  generalize ⌊(N : ℚ) / d⌋ = S at hS1 hS2 ⊢
  have hZ1 : S * d ≤ N := by
    have : (S : ℚ) * d ≤ N := (le_div_iff₀ hdq).mp hS1
    exact_mod_cast this
  have hZ2 : N + 1 ≤ (S + 1) * d := by
    have : (N : ℚ) < ((S : ℚ) + 1) * d := (div_lt_iff₀ hdq).mp hS2
    have h3 : N < (S + 1) * d := by exact_mod_cast this
    exact h3
  have hup : (N : ℚ) / d + 1 / d ≤ (S : ℚ) + 1 := by
    rw [← add_div, div_le_iff₀ hdq]
    exact_mod_cast hZ2
  have hle : ⌊m⌋ ≤ S := by
    have : ⌊m⌋ < S + 1 := by
      rw [Int.floor_lt]
      push_cast
      linarith
    omega
  by_cases hN : N = S * d
  · have hw : (N : ℚ) / d = S := by
      rw [hN]
      push_cast
      field_simp
    have h1d : (1 : ℚ) / d ≤ 1 := by
      rw [div_le_one hdq]
      exact_mod_cast hd
    have hge : S - 1 ≤ ⌊m⌋ := by
      rw [Int.le_floor]
      push_cast
      linarith
    rcases (by omega : ⌊m⌋ = S ∨ ⌊m⌋ = S - 1) with e | e
    · exact Or.inl e
    · exact Or.inr ⟨e, hw⟩
  · left
    have hZ3 : S * d + 1 ≤ N := by
      have : S * d < N := lt_of_le_of_ne hZ1 (Ne.symm hN)
      exact this
    have hdown : (S : ℚ) ≤ (N : ℚ) / d - 1 / d := by
      rw [← sub_div, le_div_iff₀ hdq]
      have : ((S * d + 1 : ℤ) : ℚ) ≤ N := Int.cast_le.mpr hZ3
      push_cast at this
      linarith
    have hge : S ≤ ⌊m⌋ := by
      rw [Int.le_floor]
      linarith
    omega

theorem toNumber_of_le_zpow {x : ℚ} (k : ℤ) (h0 : 0 ≤ x) (hx : x ≤ 2 ^ k) (hk : -1022 ≤ k)
    (hk2 : k < 1024) :
    toNumber x = JSNumber.finite (nearestDouble x) ∧ 0 ≤ nearestDouble x
      ∧ nearestDouble x ≤ 2 ^ k := by
  have hlo := nearestDouble_nonneg h0
  have hhi : nearestDouble x ≤ 2 ^ k := by
    have := nearestDouble_mono h0 hx
    rwa [nearestDouble_zpow k hk] at this
  refine ⟨?_, hlo, hhi⟩
  unfold toNumber
  rw [if_pos]
  rw [abs_of_nonneg hlo]
  calc nearestDouble x ≤ (2 : ℚ) ^ k := hhi
    _ < (2 : ℚ) ^ (1024 : ℤ) := zpow_lt_zpow_right₀ (by norm_num) hk2
    _ = 2 ^ 1024 := by norm_num

theorem toNumber_intCast (n : ℤ) (h0 : 0 ≤ n) (h : n ≤ 2 ^ 53) :
    toNumber n = JSNumber.finite n := by
  have hq0 : (0 : ℚ) ≤ n := by exact_mod_cast h0
  have hq53 : (n : ℚ) ≤ 2 ^ (53 : ℤ) := by
    have : (n : ℚ) ≤ (((2 : ℤ) ^ 53 : ℤ) : ℚ) := Int.cast_le.mpr h
    exact le_trans this (le_of_eq (by norm_num))
  rw [(toNumber_of_le_zpow 53 hq0 hq53 (by norm_num) (by norm_num)).1,
    nearestDouble_intCast n h0 h]

/-- The value of `percentage` on counts a double holds exactly: the quotient
is rounded to a double, the product with 100 is rounded to a double, and
`Math.round` takes the floor of that plus a half. -/
theorem percentage_eq (p t : ℤ) (hp0 : 0 ≤ p) (hp : p ≤ 2 ^ 53) (ht0 : 0 < t) (ht : t ≤ 2 ^ 53) :
    percentage (progressOf p t)
      = JSNumber.finite (⌊nearestDouble (nearestDouble ((p : ℚ) / t) * 100) + 1 / 2⌋ : ℤ)
      ∧ 0 ≤ nearestDouble ((p : ℚ) / t) ∧ nearestDouble ((p : ℚ) / t) ≤ 2 ^ (53 : ℤ) := by
  have hpq0 : (0 : ℚ) ≤ p := by exact_mod_cast hp0
  have hpq : (p : ℚ) ≤ 2 ^ (53 : ℤ) := by
    have : (p : ℚ) ≤ (((2 : ℤ) ^ 53 : ℤ) : ℚ) := Int.cast_le.mpr hp
    exact le_trans this (le_of_eq (by norm_num))
  have htq1 : (1 : ℚ) ≤ t := by exact_mod_cast ht0
  have htpos : (0 : ℚ) < t := lt_of_lt_of_le zero_lt_one htq1
  have hq0 : 0 ≤ (p : ℚ) / t := div_nonneg hpq0 (le_of_lt htpos)
  have hq53 : (p : ℚ) / t ≤ 2 ^ (53 : ℤ) := by
    rw [div_le_iff₀ htpos]
    calc (p : ℚ) ≤ 2 ^ (53 : ℤ) := hpq
      _ = 2 ^ (53 : ℤ) * 1 := by ring
      _ ≤ 2 ^ (53 : ℤ) * t := mul_le_mul_of_nonneg_left htq1 (by positivity)
  obtain ⟨hQ, hQ0, hQ53⟩ := toNumber_of_le_zpow 53 hq0 hq53 (by norm_num) (by norm_num)
  have hm0 : 0 ≤ nearestDouble ((p : ℚ) / t) * 100 := mul_nonneg hQ0 (by norm_num)
  have hm60 : nearestDouble ((p : ℚ) / t) * 100 ≤ 2 ^ (60 : ℤ) := by
    calc nearestDouble ((p : ℚ) / t) * 100
        ≤ 2 ^ (53 : ℤ) * 100 := mul_le_mul_of_nonneg_right hQ53 (by norm_num)
      _ ≤ 2 ^ (60 : ℤ) := by norm_num
  obtain ⟨hM, _, _⟩ := toNumber_of_le_zpow 60 hm0 hm60 (by norm_num) (by norm_num)
  refine ⟨?_, hQ0, hQ53⟩
  simp only [percentage, progressOf, countNumber, toNumber_intCast p hp0 hp,
    toNumber_intCast t ht0.le ht, jsPositive, htpos, decide_True, if_true, jsDiv,
    ne_of_gt htpos, if_false, hQ, jsMul, hM, Math.round]

theorem abs_scaled_sub_lt (p t : ℤ) (hp0 : 0 ≤ p) (hp : p < 2 ^ 43) (ht0 : 0 < t)
    (ht : t ≤ 2 ^ 53) :
    |nearestDouble (nearestDouble ((p : ℚ) / t) * 100) - 100 * (p : ℚ) / t|
      < 1 / ((2 * t : ℤ) : ℚ) := by
  have htq1 : (1 : ℚ) ≤ t := by exact_mod_cast ht0
  have htpos : (0 : ℚ) < t := lt_of_lt_of_le zero_lt_one htq1
  have htq : (t : ℚ) ≤ 2 ^ (53 : ℤ) := by
    have : (t : ℚ) ≤ (((2 : ℤ) ^ 53 : ℤ) : ℚ) := Int.cast_le.mpr ht
    exact le_trans this (le_of_eq (by norm_num))
  have hd : (0 : ℚ) < ((2 * t : ℤ) : ℚ) := by push_cast; linarith
  rcases eq_or_lt_of_le hp0 with hz | hpos
  · rw [← hz]
    simp only [Int.cast_zero, zero_div, nearestDouble_zero, zero_mul, mul_zero, sub_self,
      abs_zero]
    exact div_pos one_pos hd
  · have hpq1 : (1 : ℚ) ≤ p := by exact_mod_cast hpos
    have hpq : (p : ℚ) ≤ 2 ^ (43 : ℤ) := by
      have : (p : ℚ) ≤ (((2 : ℤ) ^ 43 : ℤ) : ℚ) := Int.cast_le.mpr (le_of_lt hp)
      exact le_trans this (le_of_eq (by norm_num))
    have hx53 : (2 : ℚ) ^ (-53 : ℤ) ≤ (p : ℚ) / t := by
      rw [le_div_iff₀ htpos]
      calc (2 : ℚ) ^ (-53 : ℤ) * t ≤ 2 ^ (-53 : ℤ) * 2 ^ (53 : ℤ) :=
            mul_le_mul_of_nonneg_left htq (by positivity)
        _ = 1 := by norm_num
        _ ≤ p := hpq1
    have hxpos : (0 : ℚ) < (p : ℚ) / t := lt_of_lt_of_le (by positivity) hx53
    have hxlo : (2 : ℚ) ^ (-1021 : ℤ) ≤ (p : ℚ) / t :=
      le_trans (zpow_le_zpow_right₀ (by norm_num) (by norm_num)) hx53
    have hc0 : (0 : ℚ) < 2 ^ (-53 : ℤ) := by positivity
    have hc1 : (2 : ℚ) ^ (-53 : ℤ) ≤ 1 := by norm_num
    have e1 := abs_le.mp (abs_nearestDouble_sub_le_mul hxlo)
    have hu0 : 0 ≤ (p : ℚ) / t * 2 ^ (-53 : ℤ) := mul_nonneg (le_of_lt hxpos) (le_of_lt hc0)
    have hu1 : (p : ℚ) / t * 2 ^ (-53 : ℤ) ≤ (p : ℚ) / t := by
      calc (p : ℚ) / t * 2 ^ (-53 : ℤ) ≤ (p : ℚ) / t * 1 :=
            mul_le_mul_of_nonneg_left hc1 (le_of_lt hxpos)
        _ = (p : ℚ) / t := by ring
    have hQle : nearestDouble ((p : ℚ) / t) ≤ 2 * ((p : ℚ) / t) := by linarith [e1.2]
    have hQge : (p : ℚ) / t ≤ nearestDouble ((p : ℚ) / t) * 100 := by
      have : (p : ℚ) / t - (p : ℚ) / t * 2 ^ (-53 : ℤ) ≤ nearestDouble ((p : ℚ) / t) := by
        linarith [e1.1]
      have h2 : (p : ℚ) / t * 2 ^ (-53 : ℤ) ≤ (p : ℚ) / t / 2 := by
        have hc2 : (2 : ℚ) ^ (-53 : ℤ) ≤ 1 / 2 := by norm_num
        calc (p : ℚ) / t * 2 ^ (-53 : ℤ) ≤ (p : ℚ) / t * (1 / 2) :=
              mul_le_mul_of_nonneg_left hc2 (le_of_lt hxpos)
          _ = (p : ℚ) / t / 2 := by ring
      linarith
    have e2 := abs_le.mp (abs_nearestDouble_sub_le_mul (le_trans hxlo hQge))
    have hQc : nearestDouble ((p : ℚ) / t) * 100 * 2 ^ (-53 : ℤ)
        ≤ 200 * ((p : ℚ) / t * 2 ^ (-53 : ℤ)) := by
      calc nearestDouble ((p : ℚ) / t) * 100 * 2 ^ (-53 : ℤ)
          ≤ 2 * ((p : ℚ) / t) * 100 * 2 ^ (-53 : ℤ) := by
            apply mul_le_mul_of_nonneg_right _ (le_of_lt hc0)
            linarith
        _ = 200 * ((p : ℚ) / t * 2 ^ (-53 : ℤ)) := by ring
    have habs : |nearestDouble (nearestDouble ((p : ℚ) / t) * 100) - 100 * (p : ℚ) / t|
        ≤ 300 * ((p : ℚ) / t * 2 ^ (-53 : ℤ)) := by
      rw [abs_le]
      have e100 : 100 * (p : ℚ) / t = 100 * ((p : ℚ) / t) := by ring
      rw [e100]
      constructor <;> linarith [e1.1, e1.2, e2.1, e2.2]
    have hsmall : 300 * ((p : ℚ) / t * 2 ^ (-53 : ℤ)) < 1 / ((2 * t : ℤ) : ℚ) := by
      rw [lt_div_iff₀ hd]
      push_cast
      have e : 300 * ((p : ℚ) / t * 2 ^ (-53 : ℤ)) * (2 * t)
          = 600 * 2 ^ (-53 : ℤ) * p := by
        field_simp
        ring
      rw [e]
      calc 600 * 2 ^ (-53 : ℤ) * (p : ℚ) ≤ 600 * 2 ^ (-53 : ℤ) * 2 ^ (43 : ℤ) :=
            mul_le_mul_of_nonneg_left hpq (by positivity)
        _ < 1 := by norm_num
    exact lt_of_le_of_lt habs hsmall

/-- The percentage against the formula of the specification, for a processed
count below `2 ^ 43` and a total up to `2 ^ 53`: the two agree, except that
when `100 * processed / total` is exactly a half above an integer the code may
show that integer instead of the next one. -/
theorem percentage_near_spec (p t : ℤ) (hp0 : 0 ≤ p) (hp : p < 2 ^ 43) (ht0 : 0 < t)
    (ht : t ≤ 2 ^ 53) :
    ∃ k : ℤ, percentage (progressOf p t) = JSNumber.finite k
      ∧ (k = percentageSpec p t
        ∨ (k = percentageSpec p t - 1
            ∧ (100 * p / t : ℚ) + 1 / 2 = (percentageSpec p t : ℤ))) := by
  have hp53 : p ≤ 2 ^ 53 := le_trans (le_of_lt hp) (by norm_num)
  obtain ⟨hval, _, _⟩ := percentage_eq p t hp0 hp53 ht0 ht
  refine ⟨_, hval, ?_⟩
  have htpos : (0 : ℚ) < t := by exact_mod_cast ht0
  have hd : 0 < 2 * t := by omega
  have hN : ((200 * p + t : ℤ) : ℚ) / ((2 * t : ℤ) : ℚ) = 100 * (p : ℚ) / t + 1 / 2 := by
    push_cast
    field_simp
    ring
  have hclose : |nearestDouble (nearestDouble ((p : ℚ) / t) * 100) + 1 / 2
      - ((200 * p + t : ℤ) : ℚ) / ((2 * t : ℤ) : ℚ)| < 1 / ((2 * t : ℤ) : ℚ) := by
    rw [hN]
    have := abs_scaled_sub_lt p t hp0 hp ht0 ht
    have e : nearestDouble (nearestDouble ((p : ℚ) / t) * 100) + 1 / 2
        - (100 * (p : ℚ) / t + 1 / 2)
        = nearestDouble (nearestDouble ((p : ℚ) / t) * 100) - 100 * (p : ℚ) / t := by ring
    rw [e]
    exact this
  have hspec : percentageSpec p t = ⌊((200 * p + t : ℤ) : ℚ) / ((2 * t : ℤ) : ℚ)⌋ := by
    unfold percentageSpec
    rw [if_pos ht0, hN]
  have key := floor_of_close (200 * p + t) (2 * t) hd _ hclose
  rw [hspec]
  rcases key with h | ⟨h1, h2⟩
  · exact Or.inl h
  · exact Or.inr ⟨h1, by rw [← hN]; exact h2⟩

theorem percentage_value (p t k : ℤ) (q m : ℚ) (hp0 : 0 ≤ p) (hp : p ≤ 2 ^ 53) (ht0 : 0 < t)
    (ht : t ≤ 2 ^ 53) (hq : nearestDouble ((p : ℚ) / t) = q)
    (hm : nearestDouble (q * 100) = m) (hk1 : (k : ℚ) ≤ m + 1 / 2)
    (hk2 : m + 1 / 2 < (k : ℚ) + 1) :
    percentage (progressOf p t) = JSNumber.finite k := by
  rw [(percentage_eq p t hp0 hp ht0 ht).1, hq, hm]
  congr 2
  rw [Int.floor_eq_iff]
  exact ⟨hk1, hk2⟩

theorem nearestDouble_eighth : nearestDouble (1 / 8) = 1 / 8 := by
  have h := nearestDouble_zpow (-3) (by norm_num)
  have e : (2 : ℚ) ^ (-3 : ℤ) = 1 / 8 := by norm_num
  rwa [e] at h

theorem nearestDouble_eighth_scaled : nearestDouble (1 / 8 * 100) = 25 / 2 := by
  rw [nearestDouble_eq 3 7036874417766400 (by norm_num) (by norm_num) (by norm_num)
    (by norm_num) (by norm_num)]
  norm_num

theorem percentage_zero_of_ten : percentage (progressOf 0 10) = JSNumber.finite 0 := by
  have h := percentage_value 0 10 0 0 0 (by norm_num) (by norm_num) (by norm_num) (by norm_num)
    (by simpa using nearestDouble_zero) (by simpa using nearestDouble_zero) (by norm_num)
    (by norm_num)
  simpa using h

theorem percentage_three_of_ten : percentage (progressOf 3 10) = JSNumber.finite 30 := by
  have h := percentage_value 3 10 30 _ 30 (by norm_num) (by norm_num) (by norm_num)
    (by norm_num) (by simpa using nearestDouble_three_tenths)
    nearestDouble_three_tenths_scaled (by norm_num) (by norm_num)
  simpa using h

theorem percentage_seven_of_ten : percentage (progressOf 7 10) = JSNumber.finite 70 := by
  have h := percentage_value 7 10 70 _ 70 (by norm_num) (by norm_num) (by norm_num)
    (by norm_num) (by simpa using nearestDouble_seven_tenths)
    nearestDouble_seven_tenths_scaled (by norm_num) (by norm_num)
  simpa using h

theorem percentage_ten_of_ten : percentage (progressOf 10 10) = JSNumber.finite 100 := by
  have h := percentage_value 10 10 100 1 100 (by norm_num) (by norm_num) (by norm_num)
    (by norm_num) (by simpa using nearestDouble_one) (by simpa using nearestDouble_hundred)
    (by norm_num) (by norm_num)
  simpa using h

theorem percentage_one_of_eight : percentage (progressOf 1 8) = JSNumber.finite 13 := by
  have h := percentage_value 1 8 13 _ _ (by norm_num) (by norm_num) (by norm_num)
    (by norm_num) (by simpa using nearestDouble_eighth) nearestDouble_eighth_scaled
    (by norm_num) (by norm_num)
  simpa using h

theorem percentage_twentythree_of_forty :
    percentage (progressOf 23 40) = JSNumber.finite 57 := by
  have h := percentage_value 23 40 57 _ _ (by norm_num) (by norm_num) (by norm_num)
    (by norm_num) (by simpa using nearestDouble_twentythree_fortieths)
    nearestDouble_twentythree_fortieths_scaled (by norm_num) (by norm_num)
  simpa using h

theorem percentageSpec_twentythree_of_forty : percentageSpec 23 40 = 58 := by
  unfold percentageSpec
  rw [if_pos (by norm_num), Int.floor_eq_iff]
  constructor <;> norm_num

theorem toNumber_hugeCount : toNumber (hugeCount : ℚ) = JSNumber.posInf := by
  have hpos : (0 : ℚ) < (hugeCount : ℚ) := by unfold hugeCount; norm_num
  rcases toNumber_nonneg_cases (le_of_lt hpos) with ⟨_, hlt⟩ | ⟨e, _, _⟩
  · exfalso
    have h1 : (2 : ℚ) ^ (1024 : ℤ) ≤ (hugeCount : ℚ) := by unfold hugeCount; norm_num
    have h2 := nearestDouble_mono (by positivity) h1
    rw [nearestDouble_zpow 1024 (by norm_num)] at h2
    have h3 : (2 : ℚ) ^ (1024 : ℤ) = 2 ^ 1024 := by norm_num
    rw [h3] at h2
    exact absurd (lt_of_le_of_lt h2 hlt) (lt_irrefl _)
  · exact e

theorem percentage_of_infinite_total (p t : ℤ) (a : ℚ)
    (hT : toNumber (t : ℚ) = JSNumber.posInf) (hP : toNumber (p : ℚ) = JSNumber.finite a) :
    percentage (progressOf p t) = JSNumber.finite 0 := by
  simp only [percentage, progressOf, countNumber, hT, hP, jsPositive, if_true,
    jsDiv, jsMul, zero_mul, toNumber_zero, Math.round]
  norm_num

theorem percentage_of_infinite_counts (p t : ℤ)
    (hT : toNumber (t : ℚ) = JSNumber.posInf) (hP : toNumber (p : ℚ) = JSNumber.posInf) :
    percentage (progressOf p t) = JSNumber.nan := by
  simp only [percentage, progressOf, countNumber, hT, hP, jsPositive, if_true,
    jsDiv, jsMul, Math.round]

theorem percentage_zero_of_huge :
    percentage (progressOf 0 hugeCount) = JSNumber.finite 0 :=
  percentage_of_infinite_total 0 hugeCount 0 toNumber_hugeCount
    (by simpa using toNumber_zero)

theorem percentage_huge_of_huge :
    percentage (progressOf hugeCount hugeCount) = JSNumber.nan :=
  percentage_of_infinite_counts hugeCount hugeCount toNumber_hugeCount toNumber_hugeCount

theorem toNumber_ne_posInf (n : ℤ) (h0 : 0 ≤ n) (h : n ≤ 2 ^ 53) :
    toNumber (n : ℚ) ≠ JSNumber.posInf := by
  rw [toNumber_intCast n h0 h]
  exact fun h => JSNumber.noConfusion h

/-- C12 fails on the code in two places. The percentage is not the formula of
the claim: 23 of 40 is 57.5 per cent and the formula gives 58, but the code
rounds the quotient `23 / 40` to a double before it multiplies by 100, the
product is the double just below 57.5, and the percentage is 57. And the
percentage is not monotonic over all integers: with a total too large for a
double a processed count of 0 gives 0, while a processed count equal to the
total gives `Infinity / Infinity`, which is `NaN`, and `0 <= NaN` is false. -/
theorem percentage_not_the_formula :
    percentageSpec 23 40 = 58
      ∧ percentage (progressOf 23 40) = JSNumber.finite 57
      ∧ 0 < hugeCount
      ∧ percentage (progressOf 0 hugeCount) = JSNumber.finite 0
      ∧ percentage (progressOf hugeCount hugeCount) = JSNumber.nan
      ∧ ¬ (percentage (progressOf 0 hugeCount)).le
            (percentage (progressOf hugeCount hugeCount)) := by
  refine ⟨percentageSpec_twentythree_of_forty, percentage_twentythree_of_forty, ?_,
    percentage_zero_of_huge, percentage_huge_of_huge, ?_⟩
  · unfold hugeCount
    norm_num
  · rw [percentage_zero_of_huge, percentage_huge_of_huge]
    exact fun h => h

/-- C12 as amended: the derived percentage is
`Math.round((processed / total) * 100)` in double arithmetic when the total is
positive and 0 otherwise. It is monotonic: for every total above 0 and all
integers `0 ≤ p1 ≤ p2`, unless both the total and `p2` are too large for a
double, the percentage of `p1` is at most the percentage of `p2` (either may
be `Infinity`). For a processed count below `2 ^ 43` and a total up to
`2 ^ 53` it is `round(100 * processed / total)`, except that where
`100 * processed / total` is exactly a half above an integer it may be that
integer instead of the next one. With total 10 the processed counts
0, 3, 7, 10 give 0, 30, 70, 100; 1 of 8 gives 13 and 23 of 40 gives 57. -/
theorem percentage_monotone :
    (∀ total p1 p2 : ℤ, 0 < total → 0 ≤ p1 → p1 ≤ p2 →
        ¬ (toNumber total = JSNumber.posInf ∧ toNumber p2 = JSNumber.posInf) →
        (percentage (progressOf p1 total)).le (percentage (progressOf p2 total)))
      ∧ (∀ total processed : ℤ, total ≤ 0 →
          percentage (progressOf processed total) = JSNumber.finite 0)
      ∧ (∀ processed total : ℤ, 0 ≤ processed → processed < 2 ^ 43 → 0 < total →
          total ≤ 2 ^ 53 →
          ∃ k : ℤ, percentage (progressOf processed total) = JSNumber.finite k
            ∧ (k = percentageSpec processed total
              ∨ (k = percentageSpec processed total - 1
                  ∧ (100 * processed / total : ℚ) + 1 / 2
                      = (percentageSpec processed total : ℤ))))
      ∧ [percentage (progressOf 0 10), percentage (progressOf 3 10),
          percentage (progressOf 7 10), percentage (progressOf 10 10)]
          = [JSNumber.finite 0, JSNumber.finite 30, JSNumber.finite 70, JSNumber.finite 100]
      ∧ percentage (progressOf 1 8) = JSNumber.finite 13
      ∧ percentage (progressOf 23 40) = JSNumber.finite 57 := by
  refine ⟨percentage_le_of_le, ?_, percentage_near_spec, ?_, percentage_one_of_eight,
    percentage_twentythree_of_forty⟩
  · intro total processed ht
    exact percentage_of_total_nonpos total (some processed) none none ht
  · rw [percentage_zero_of_ten, percentage_three_of_ten, percentage_seven_of_ten,
      percentage_ten_of_ten]

theorem percentage_monotone_witness :
    (0 : ℤ) < 40 ∧ (0 : ℤ) ≤ 22 ∧ (22 : ℤ) ≤ 23
      ∧ ¬ (toNumber ((40 : ℤ) : ℚ) = JSNumber.posInf
            ∧ toNumber ((23 : ℤ) : ℚ) = JSNumber.posInf)
      ∧ (percentage (progressOf 22 40)).le (percentage (progressOf 23 40))
      ∧ ∃ k : ℤ, percentage (progressOf 23 40) = JSNumber.finite k
          ∧ (k = percentageSpec 23 40
            ∨ (k = percentageSpec 23 40 - 1
                ∧ (100 * ((23 : ℤ) : ℚ) / ((40 : ℤ) : ℚ)) + 1 / 2
                    = (percentageSpec 23 40 : ℤ))) :=
  have hfin : ¬ (toNumber ((40 : ℤ) : ℚ) = JSNumber.posInf
      ∧ toNumber ((23 : ℤ) : ℚ) = JSNumber.posInf) :=
    fun h => toNumber_ne_posInf 40 (by decide) (by decide) h.1
  ⟨by decide, by decide, by decide, hfin,
    percentage_monotone.1 40 22 23 (by decide) (by decide) (by decide) hfin,
    percentage_monotone.2.2.1 23 40 (by decide) (by decide) (by decide) (by decide)⟩

/-! ## C13: the credential -/

/-- C13: `handleSubmit` passes `token` as absent when the token field is the
empty string and passes the string itself when it is not empty; an empty
string is never passed on. -/
theorem handleSubmit_token (f : FormState) :
    (f.token = "" → (handleSubmit f).token = none)
      ∧ (f.token ≠ "" → (handleSubmit f).token = some f.token)
      ∧ (handleSubmit f).token ≠ some "" := by
  by_cases h : f.token = ""
  · simp [handleSubmit, h]
  · refine ⟨fun h0 => absurd h0 h, fun _ => by simp [handleSubmit, h], ?_⟩
    simp only [handleSubmit, bne_iff_ne, ne_eq, h, not_false_eq_true, if_true]
    intro hc
    exact h (Option.some.inj hc)

theorem handleSubmit_token_witness :
    (handleSubmit { FormState.initial with token := "" }).token = none
      ∧ (handleSubmit { FormState.initial with token := "ghp_abc" }).token = some "ghp_abc" :=
  ⟨(handleSubmit_token { FormState.initial with token := "" }).1 rfl,
    (handleSubmit_token { FormState.initial with token := "ghp_abc" }).2.1 (by decide)⟩

end GithubDocx
